import Mathlib

/-!
GoCard review dashboard: deck statistics (internal/ui/deck_review_tab.go) and
main menu (internal/ui/main_menu.go)

A shallow embedding of the statistics aggregator of the deck review tab, of the
main menu and of the values they consume, followed by theorems about them.

Conventions of the embedding

* A Go `time.Time` is the number of nanoseconds elapsed since the zero time
  (1 January of year 1, 00:00:00 UTC) together with its `time.Location`, a
  table of offset transitions; `AddDate` and `Format` work on the calendar of
  that location, `Truncate`, `After`, `Equal` and `IsZero` on the instant.
* `time.Now()` is an explicit argument `now` of every function that reads the
  clock; its location is `time.Local`.
* A Go `int` is an `Int`; sums of caller-supplied integers wrap to 64 bits
  (`wrapInt64`), counters bounded by the length of a slice do not need to.
* A Go `float64` is a finite binary floating-point value `m * 2 ^ e`; division
  and multiplication round the exact result to 53 significant bits, ties to
  even, as IEEE 754 prescribes.
* A Go `map[int]int` is an association list with distinct keys.
* The lipgloss styling primitives are parameters (`Styles`).
* A bubbletea message is a key press (by the name of its key), a window resize
  or any other message; the package variable `keys` is an explicit argument of
  `MainMenu.Update`.
-/

namespace GoCard

/-! ## Machine integers -/

/-- Two's-complement wrap-around of a Go `int` (64 bits). -/
def wrapInt64 (x : Int) : Int :=
  (x + 2 ^ 63) % 2 ^ 64 - 2 ^ 63

/-! ## float64 -/

/-- A finite `float64` value: `m * 2 ^ e`. -/
structure F64 where
  m : Int
  e : Int
  deriving DecidableEq, Repr

namespace F64

/-- The rational number a float denotes. -/
def toRat (x : F64) : ℚ :=
  if 0 ≤ x.e then (x.m : ℚ) * 2 ^ x.e.toNat else (x.m : ℚ) / 2 ^ (-x.e).toNat

/-- Positive zero. -/
def zero : F64 := ⟨0, 0⟩

/-- Auxiliary of `log2`: `fuel` bounds the number of halvings. -/
def log2Aux : Nat → Nat → Nat
  | 0, _ => 0
  | fuel + 1, n => if n < 2 then 0 else log2Aux fuel (n / 2) + 1

/-- Position of the leading bit of `n`: the floor of its binary logarithm. -/
def log2 (n : Nat) : Nat := log2Aux n n

/-- The quotient `num / den` rounded to the nearest natural number, ties to
the even one. -/
def roundNearestEven (num den : Nat) : Nat :=
  let q : Nat := num / den
  let r : Nat := num % den
  if 2 * r < den then q
  else if den < 2 * r then q + 1
  else if q % 2 = 0 then q else q + 1

/-- The binary shift `s` that brings the positive rational `n / d` into the
range of a 53-bit mantissa: `2 ^ 52 <= (n / d) * 2 ^ s < 2 ^ 53`. -/
def roundShift (n d : Nat) : Int :=
  let l : Int := (log2 n : Int) - (log2 d : Int)
  let s0 : Int := 52 - l
  if n * 2 ^ s0.toNat < d * 2 ^ (-s0).toNat * 2 ^ 52 then s0 + 1 else s0

/-- Round-to-nearest, ties-to-even, of the positive rational `(n / d) * 2 ^ k`
to 53 significant bits (`n` and `d` positive). The result is the signed
mantissa and its exponent. All values this program computes lie far inside the
normal range of `float64`, so neither overflow nor gradual underflow is
modelled. -/
def roundRatio (neg : Bool) (n d : Nat) (k : Int) : F64 :=
  let s : Int := roundShift n d
  let mant : Nat := roundNearestEven (n * 2 ^ s.toNat) (d * 2 ^ (-s).toNat)
  ⟨if neg then -(mant : Int) else (mant : Int), k - s⟩

/-- Conversion `float64(i)` of an integer. -/
def ofInt (i : Int) : F64 :=
  if i = 0 then zero else roundRatio (decide (i < 0)) i.natAbs 1 0

/-- Quotient `x / y` of two floats. Every division in this file is guarded by
a test that the divisor is not zero; for a zero divisor (infinity or NaN in Go)
this function returns zero, which no caller observes. -/
def div (x y : F64) : F64 :=
  if x.m = 0 ∨ y.m = 0 then zero
  else roundRatio (xor (decide (x.m < 0)) (decide (y.m < 0))) x.m.natAbs y.m.natAbs (x.e - y.e)

/-- Product `x * y` of two floats. -/
def mul (x y : F64) : F64 :=
  if x.m = 0 ∨ y.m = 0 then zero
  else roundRatio (xor (decide (x.m < 0)) (decide (y.m < 0))) (x.m.natAbs * y.m.natAbs) 1 (x.e + y.e)

/-- Conversion `int(x)`: the fractional part is discarded (truncation towards
zero). Go leaves the conversion of a value outside the range of `int`
unspecified; here it is the mathematical integer. -/
def toInt (x : F64) : Int :=
  if 0 ≤ x.e then x.m * 2 ^ x.e.toNat
  else
    let a : Int := ((x.m.natAbs / 2 ^ (-x.e).toNat : Nat) : Int)
    if x.m < 0 then -a else a

/-- The text of `fmt.Sprintf("%.1f", x)`: the exact value rounded to one
decimal, ties to even. -/
def format1 (x : F64) : String :=
  let t : Nat := roundNearestEven (x.m.natAbs * 10 * 2 ^ x.e.toNat) (2 ^ (-x.e).toNat)
  (if x.m < 0 then "-" else "") ++ toString (t / 10) ++ "." ++ toString (t % 10)

end F64

/-! ## time.Time -/

/-- A `time.Location`: the offset from UTC, in seconds east, in force before the
first transition, and the transitions in ascending order, each with the second
(counted from the zero time) at which it takes effect and the offset in force
from then on. The offset of the last transition stays in force for ever after
it. -/
structure Location where
  firstOffset : Int
  tx : List (Int × Int)
  deriving DecidableEq, Repr

namespace Location

/-- The location `time.UTC`. -/
def UTC : Location := ⟨0, []⟩

/-- Auxiliary of `lookup`: scans the transitions that remain, `offset` and
`start` being those of the period entered last. -/
def lookupFrom (sec offset : Int) (start : Option Int) : List (Int × Int) → Int × Option Int × Option Int
  | [] => (offset, start, none)
  | (w, o) :: rest => if sec < w then (offset, start, some w) else lookupFrom sec o (some w) rest

/-- Method `l.lookup(sec)`: the offset in force at the second `sec` and the
bounds `start <= sec < end` of the period during which it is in force; `none`
is the absence of a bound. -/
def lookup (l : Location) (sec : Int) : Int × Option Int × Option Int :=
  lookupFrom sec l.firstOffset none l.tx

end Location

/-- A `time.Time`: the instant, in nanoseconds since the zero time (1 January of
year 1, 00:00:00 UTC), and the location in which it is presented. -/
structure Time where
  ns : Int
  loc : Location
  deriving DecidableEq, Repr

namespace Time

/-- The zero value of `time.Time`. -/
def zero : Time := ⟨0, Location.UTC⟩

/-- Nanoseconds in `24 * time.Hour`. -/
def day : Int := 24 * 3600 * 1000000000

/-- Method `t.IsZero()`. -/
def IsZero (t : Time) : Bool := decide (t.ns = 0)

/-- Method `t.After(u)`. -/
def After (t u : Time) : Bool := decide (u.ns < t.ns)

/-- Method `t.Equal(u)`. -/
def Equal (t u : Time) : Bool := decide (t.ns = u.ns)

/-- The seconds since the zero time shown by the calendar and the clock of `t`
in its location: the second of the instant plus the offset in force. -/
def wallSeconds (t : Time) : Int :=
  t.ns / 1000000000 + (t.loc.lookup (t.ns / 1000000000)).1

/-- Method `t.AddDate(0, 0, days)`: the date and the clock of `t` in its
location are read, `days` is added to the day of the month, and `time.Date`
turns the result back into an instant of the same location. `time.Date` looks
up the offset at the wall-clock second taken as UTC and, when the instant this
gives lies outside the period of that offset, at that instant. -/
def AddDate (t : Time) (days : Int) : Time :=
  let nsec : Int := t.ns % 1000000000
  let unix : Int := t.wallSeconds + days * 86400
  let found := t.loc.lookup unix
  let utc : Int := unix - found.1
  let outside : Bool :=
    (match found.2.1 with
      | some start => decide (utc < start)
      | none => false)
    || (match found.2.2 with
      | some stop => decide (utc ≥ stop)
      | none => false)
  let offset : Int :=
    if found.1 ≠ 0 then (if outside then (t.loc.lookup utc).1 else found.1) else 0
  ⟨(unix - offset) * 1000000000 + nsec, t.loc⟩

/-- Method `t.Truncate(d)`: rounds down to a multiple of `d` since the zero
time, whatever the location; `d <= 0` leaves the instant unchanged. -/
def Truncate (t : Time) (d : Int) : Time :=
  if d ≤ 0 then t else ⟨t.ns - t.ns % d, t.loc⟩

/-- Month (1 to 12) and day of the month of `t` in its location, in the
proleptic Gregorian calendar. -/
def monthDay (t : Time) : Nat × Nat :=
  let z : Int := t.wallSeconds / 86400 + 306
  let doe : Nat := (z % 146097).toNat
  let yoe : Nat := (doe - doe / 1460 + doe / 36524 - doe / 146096) / 365
  let doy : Nat := doe - (365 * yoe + yoe / 4 - yoe / 100)
  let mp : Nat := (5 * doy + 2) / 153
  let d : Nat := doy - (153 * mp + 2) / 5 + 1
  (if mp < 10 then mp + 3 else mp - 9, d)

/-- The three-letter month names of the layout element `Jan`. -/
def monthAbbrev (month : Nat) : String :=
  match month with
  | 1 => "Jan"
  | 2 => "Feb"
  | 3 => "Mar"
  | 4 => "Apr"
  | 5 => "May"
  | 6 => "Jun"
  | 7 => "Jul"
  | 8 => "Aug"
  | 9 => "Sep"
  | 10 => "Oct"
  | 11 => "Nov"
  | _ => "Dec"

/-- Method `t.Format("Jan 2")`, in the location of `t`. -/
def FormatJan2 (t : Time) : String :=
  monthAbbrev (monthDay t).1 ++ " " ++ toString (monthDay t).2

end Time

/-! ## The entities read by the aggregator -/

/-- The fields of `model.Card` the statistics read. -/
structure Card where
  Interval : Int
  Rating : Int
  LastReviewed : Time
  deriving DecidableEq, Repr

/-- The fields of `model.Deck` the statistics read. -/
structure Deck where
  ID : String
  Name : String
  Cards : List Card
  LastStudied : Time
  deriving DecidableEq, Repr

/-- Modelled from the spec: the store collaborator `data.Store`, consumed only
through `GetDecks` (full enumeration, in its order) and `GetDeck` (lookup by
identifier, `none` when the identifier is unknown). Its implementation is not
part of the embedded sources, so both queries are fields. -/
structure Store where
  GetDecks : List Deck
  GetDeck : String → Option Deck

/-- The lipgloss primitives used by the deck review tab: the `Render` method of
the label style, of its bold variant and of the five rating styles, and the two
joins. -/
structure Styles where
  statLabel : String → String
  statLabelBold : String → String
  ratingBar : Int → String → String
  joinVertical : List String → String
  joinHorizontal : List String → String

/-! ## map[int]int -/

/-- A Go `map[int]int`: keys with their values, every key at most once. -/
abbrev IntMap := List (Int × Int)

namespace IntMap

/-- Indexing `m[k]`: the zero value when the key is absent. -/
def get (m : IntMap) (k : Int) : Int :=
  match m with
  | [] => 0
  | (k1, v1) :: rest => if k1 = k then v1 else get rest k

/-- Assignment `m[k] = v`. -/
def set (m : IntMap) (k v : Int) : IntMap :=
  match m with
  | [] => [(k, v)]
  | (k1, v1) :: rest => if k1 = k then (k, v) :: rest else (k1, v1) :: set rest k v

/-- The keys present in the map. -/
def keys (m : IntMap) : List Int := m.map Prod.fst

end IntMap

/-! ## fmt verbs -/

/-- Verb `%Nd` and `%Ns`: right-justified in a field of `width` characters. -/
def padLeft (width : Nat) (s : String) : String :=
  String.mk (List.replicate (width - s.length) ' ') ++ s

/-- Verb `%-Ns`: left-justified in a field of `width` characters. -/
def padRight (width : Nat) (s : String) : String :=
  s ++ String.mk (List.replicate (width - s.length) ' ')

/-- The result of `strings.Repeat(string(c), n)`. -/
def strRepeat (c : Char) (n : Nat) : String :=
  String.mk (List.replicate n c)

/-! ## deck_review_tab.go -/

/-- The instant `time.Now().AddDate(0, 0, -30)`. -/
def thirtyDaysAgo (now : Time) : Time := now.AddDate (-30)

/-- The test `!card.LastReviewed.IsZero() && card.LastReviewed.After(thirtyDaysAgo)`
shared by the success rate and the rating distribution. -/
def reviewedInWindow (now : Time) (card : Card) : Bool :=
  !card.LastReviewed.IsZero && card.LastReviewed.After (thirtyDaysAgo now)

/-- Function `formatLastStudied`. -/
def formatLastStudied (lastDate : Time) (now : Time) : String :=
  if lastDate.IsZero then "Never"
  else
    let today := now.Truncate Time.day
    let lastDateDay := lastDate.Truncate Time.day
    if lastDateDay.Equal today then "Today"
    else if lastDateDay.Equal (today.AddDate (-1)) then "Yesterday"
    else lastDate.FormatJan2

/-- Loop body of `getLastStudiedDeckID`; the state is `(lastDate, lastDeckID)`. -/
def lastStudiedStep (acc : Time × String) (deck : Deck) : Time × String :=
  if deck.LastStudied.After acc.1 then (deck.LastStudied, deck.ID) else acc

/-- Function `getLastStudiedDeckID`. -/
def getLastStudiedDeckID (store : Store) : String :=
  (store.GetDecks.foldl lastStudiedStep (Time.zero, "")).2

/-- Function `getDeckMatureCards`. -/
def getDeckMatureCards (deck : Deck) : Int :=
  deck.Cards.foldl (fun count card => if card.Interval ≥ 21 then count + 1 else count) 0

/-- Loop body of `calculateDeckSuccessRate`; the state is
`(totalReviewed, successful)`. -/
def successRateStep (now : Time) (acc : Int × Int) (card : Card) : Int × Int :=
  if reviewedInWindow now card then
    (acc.1 + 1, if card.Rating ≥ 3 then acc.2 + 1 else acc.2)
  else acc

/-- The expression `int((float64(part) / float64(whole)) * 100)`. -/
def floatPercent (part whole : Int) : Int :=
  F64.toInt (F64.mul (F64.div (F64.ofInt part) (F64.ofInt whole)) (F64.ofInt 100))

/-- Function `calculateDeckSuccessRate`. -/
def calculateDeckSuccessRate (deck : Deck) (now : Time) : Int :=
  let acc := deck.Cards.foldl (successRateStep now) (0, 0)
  if acc.1 = 0 then 0 else floatPercent acc.2 acc.1

/-- Loop body of `calculateDeckAverageInterval`; the state is
`(totalCards, totalInterval)`. -/
def averageIntervalStep (acc : Int × Int) (card : Card) : Int × Int :=
  if !card.LastReviewed.IsZero && decide (card.Interval > 0) then
    (acc.1 + 1, wrapInt64 (acc.2 + card.Interval))
  else acc

/-- Function `calculateDeckAverageInterval`. -/
def calculateDeckAverageInterval (deck : Deck) : F64 :=
  let acc := deck.Cards.foldl averageIntervalStep (0, 0)
  if acc.1 = 0 then F64.zero else F64.div (F64.ofInt acc.2) (F64.ofInt acc.1)

/-- Loop body of `calculateDeckRatingDistribution`. -/
def ratingDistributionStep (now : Time) (distribution : IntMap) (card : Card) : IntMap :=
  if reviewedInWindow now card && decide (card.Rating ≥ 1) && decide (card.Rating ≤ 5) then
    distribution.set card.Rating (distribution.get card.Rating + 1)
  else distribution

/-- Function `calculateDeckRatingDistribution`. -/
def calculateDeckRatingDistribution (deck : Deck) (now : Time) : IntMap :=
  let distribution : IntMap := [1, 2, 3, 4, 5].foldl (fun m i => IntMap.set m i 0) []
  deck.Cards.foldl (ratingDistributionStep now) distribution

/-- The table `ratingLabels` of `renderRatingsDistribution`. -/
def ratingLabels (i : Int) : String :=
  if i = 1 then "Blackout"
  else if i = 2 then "Wrong"
  else if i = 3 then "Hard"
  else if i = 4 then "Good"
  else if i = 5 then "Easy"
  else ""

/-- The constant `maxBarWidth`. -/
def maxBarWidth : Int := 30

/-- The `percentage` of one bar of `renderRatingsDistribution`. -/
def barPercentage (totalReviews count : Int) : Int :=
  if totalReviews > 0 then floatPercent count totalReviews else 0

/-- The `barWidth` of one bar of `renderRatingsDistribution`. -/
def barWidth (percentage : Int) : Int :=
  let w := F64.toInt (F64.mul (F64.div (F64.ofInt percentage) (F64.ofInt 100)) (F64.ofInt maxBarWidth))
  if percentage > 0 ∧ w = 0 then 1 else w

/-- One iteration of the rendering loop of `renderRatingsDistribution`: the text
appended to the builder for rating `i`. -/
def ratingBarLine (st : Styles) (distribution : IntMap) (totalReviews i : Int) : String :=
  let count := distribution.get i
  let percentage := barPercentage totalReviews count
  let label := padRight 8 (ratingLabels i) ++ " (" ++ toString i ++ ")"
  let formattedLabel := padRight 15 label
  let width := barWidth percentage
  let bar := if width > 0 then st.ratingBar i (strRepeat '█' width.toNat) else ""
  formattedLabel ++ " " ++ bar
    ++ (if percentage > 0 then " " ++ toString percentage ++ "%" else "")
    ++ (if i < 5 then "\n\n" else "")

/-- Function `renderRatingsDistribution`. -/
def renderRatingsDistribution (st : Styles) (distribution : IntMap) : String :=
  let totalReviews := distribution.foldl (fun total kv => wrapInt64 (total + kv.2)) 0
  if totalReviews = 0 then "No ratings data available"
  else
    [1, 2, 3, 4, 5].foldl (fun sb i => sb ++ ratingBarLine st distribution totalReviews i) ""

/-- The `newCards` figure of `renderDeckReviewStats`: `totalCards - matureCards`. -/
def deckNewCards (deck : Deck) : Int :=
  (deck.Cards.length : Int) - getDeckMatureCards deck

/-- The part of `renderDeckReviewStats` after the deck has been found. The three
instants are the successive clock readings taken by the success rate, by the
rating distribution and by the last studied text. -/
def renderFoundDeck (st : Styles) (deck : Deck) (now1 now2 now3 : Time) : String :=
  let deckTitle := "Deck: " ++ deck.Name
  let totalCards : Int := deck.Cards.length
  let matureCards := getDeckMatureCards deck
  let newCards := deckNewCards deck
  let successRate := calculateDeckSuccessRate deck now1
  let avgInterval := calculateDeckAverageInterval deck
  let lastStudied := deck.LastStudied
  let ratingDistribution := calculateDeckRatingDistribution deck now2
  let leftColumn := st.joinVertical [
    st.statLabel "Total Cards:" ++ strRepeat ' ' 8 ++ padLeft 4 (toString totalCards),
    st.statLabel "Mature Cards:" ++ strRepeat ' ' 7 ++ padLeft 4 (toString matureCards),
    st.statLabel "New Cards:" ++ strRepeat ' ' 10 ++ padLeft 4 (toString newCards)]
  let intervalStr := avgInterval.format1 ++ " days"
  let lastStudiedStr := formatLastStudied lastStudied now3
  let rightColumn := st.joinVertical [
    st.statLabel "\tSuccess Rate:" ++ strRepeat ' ' 6 ++ padLeft 3 (toString successRate) ++ "%",
    st.statLabel "\tAvg. Interval:" ++ strRepeat ' ' 6 ++ intervalStr,
    st.statLabel "\tLast Studied:" ++ strRepeat ' ' 6 ++ lastStudiedStr]
  let columns := st.joinHorizontal [leftColumn, rightColumn]
  st.statLabelBold deckTitle ++ "\n\n" ++ columns ++ "\n\n"
    ++ st.statLabel "Ratings Distribution" ++ "\n\n"
    ++ renderRatingsDistribution st ratingDistribution

/-- Function `renderDeckReviewStats`. -/
def renderDeckReviewStats (st : Styles) (store : Store) (focusDeckID : String)
    (now1 now2 now3 : Time) : String :=
  let deckID := if focusDeckID ≠ "" then focusDeckID else getLastStudiedDeckID store
  if deckID = "" then "No deck available to show statistics."
  else
    match store.GetDeck deckID with
    | none => "Selected deck not found."
    | some deck => renderFoundDeck st deck now1 now2 now3

/-! ## main_menu.go -/

/-- A `key.Binding` of the bubbles library: the names of the keys it answers to
and whether it has been disabled. -/
structure Binding where
  keys : List String
  disabled : Bool
  deriving DecidableEq, Repr

/-- Function `key.Matches(msg, binding)`: the binding is enabled and the name
of the key pressed, `msg.String()`, is one of its keys. -/
def Binding.Matches (pressed : String) (b : Binding) : Bool :=
  !b.disabled && b.keys.contains pressed

/-- Type `keyMap`. -/
structure keyMap where
  Up : Binding
  Down : Binding
  Enter : Binding
  Quit : Binding
  deriving DecidableEq, Repr

/-- The package variable `keys`. -/
def keys : keyMap :=
  { Up := ⟨["up", "k"], false⟩
    Down := ⟨["down", "j"], false⟩
    Enter := ⟨["enter"], false⟩
    Quit := ⟨["q", "ctrl+c"], false⟩ }

/-- A `tea.Msg`: a key press, identified by the name `msg.String()` of the key,
a window resize with its dimensions, or a message of any other type. -/
inductive Msg where
  | KeyMsg (pressed : String)
  | WindowSizeMsg (Width Height : Int)
  | other
  deriving DecidableEq, Repr

/-- A non-nil `tea.Cmd`; the only one the menu issues is `tea.Quit`. A `nil`
command is `none`. -/
inductive Cmd where
  | Quit
  deriving DecidableEq, Repr

/-- Type `MainMenu`; `store` is the pointer `*data.Store`, `none` when nil. -/
structure MainMenu where
  items : List String
  cursor : Int
  selected : Int
  width : Int
  height : Int
  store : Option Store

/-- The screens a `tea.Model` returned by the menu can be: the menu itself or
one of the two navigation targets, each holding the store it was built from. -/
inductive Model where
  | mainMenu (m : MainMenu)
  | browseScreen (store : Option Store)
  | statisticsScreen (store : Option Store)

/-- Modelled from the spec: the constructor `NewBrowseScreen` of the browse
screen, whose source is not part of the embedded files; a navigation target is
constructed with exactly one argument, the reference to the shared store. -/
def NewBrowseScreen (store : Option Store) : Model := Model.browseScreen store

/-- Modelled from the spec: the constructor `NewStatisticsScreen` of the
statistics screen, whose source is not part of the embedded files; a navigation
target is constructed with exactly one argument, the reference to the shared
store. -/
def NewStatisticsScreen (store : Option Store) : Model := Model.statisticsScreen store

/-- Function `NewMainMenu`. The store that `data.NewStore()` creates for a nil
argument is the parameter `newStore`. -/
def NewMainMenu (newStore : Store) (store : Option Store) : MainMenu :=
  let store := match store with
    | none => some newStore
    | some s => some s
  { items := ["Study", "Browse Decks", "Statistics", "Quit"]
    cursor := 0
    selected := -1
    width := 0
    height := 0
    store := store }

/-- Method `MainMenu.Update`. The package variable `keys` it reads is the
argument `km`. The decrement and the increment of the cursor are guarded by
comparisons that keep them inside the range of an `int`. -/
def MainMenu.Update (m : MainMenu) (km : keyMap) (msg : Msg) : Model × Option Cmd :=
  match msg with
  | Msg.KeyMsg pressed =>
    if Binding.Matches pressed km.Quit then (Model.mainMenu m, some Cmd.Quit)
    else if Binding.Matches pressed km.Up then
      (Model.mainMenu (if m.cursor > 0 then { m with cursor := m.cursor - 1 } else m), none)
    else if Binding.Matches pressed km.Down then
      (Model.mainMenu
        (if m.cursor < (m.items.length : Int) - 1 then { m with cursor := m.cursor + 1 } else m),
        none)
    else if Binding.Matches pressed km.Enter then
      let m1 : MainMenu := { m with selected := m.cursor }
      if m1.cursor = 0 then (NewBrowseScreen m1.store, none)
      else if m1.cursor = 1 then (NewBrowseScreen m1.store, none)
      else if m1.cursor = 2 then (NewStatisticsScreen m1.store, none)
      else if m1.cursor = 3 then (Model.mainMenu m1, some Cmd.Quit)
      else (Model.mainMenu m1, none)
    else (Model.mainMenu m, none)
  | Msg.WindowSizeMsg _ Height =>
    (Model.mainMenu { m with width := 120, height := Height }, none)
  | Msg.other => (Model.mainMenu m, none)

/-- The menu reached from `m` by a sequence of events, as long as `Update`
keeps returning the menu; `none` once an event has replaced the menu by another
screen. -/
def MainMenu.run (km : keyMap) : MainMenu → List Msg → Option MainMenu
  | m, [] => some m
  | m, msg :: rest =>
    match (m.Update km msg).1 with
    | Model.mainMenu m1 => MainMenu.run km m1 rest
    | _ => none

/-! ## Counting vocabulary of the statements -/

/-- The cards with a non-zero `LastReviewed` inside the 30-day window. -/
def windowCards (deck : Deck) (now : Time) : List Card :=
  deck.Cards.filter (reviewedInWindow now)

/-- The cards with a non-zero `LastReviewed` and a positive `Interval`. -/
def scheduledCards (deck : Deck) : List Card :=
  deck.Cards.filter (fun c => !c.LastReviewed.IsZero && decide (c.Interval > 0))

/-- How many of `cards` carry the rating `r`. -/
def ratingCount (cards : List Card) (r : Int) : Int :=
  (cards.countP (fun c => decide (c.Rating = r)) : Nat)

/-- The map with the five rating keys in order and the given values. -/
def fiveBuckets (a1 a2 a3 a4 a5 : Int) : IntMap :=
  [(1, a1), (2, a2), (3, a3), (4, a4), (5, a5)]

/-- Contribution of one card to the bucket of rating `r`. -/
def bucketHit (now : Time) (c : Card) (r : Int) : Int :=
  if reviewedInWindow now c = true ∧ c.Rating = r then 1 else 0

/-! ## Concrete decks and instants used as examples -/

/-- Noon of 1 November 2026 UTC, on a machine whose local zone is UTC. -/
def refNow : Time := ⟨739920 * Time.day + 12 * 3600 * 1000000000, Location.UTC⟩

/-- The part of the zone America/New_York that covers 2026: Eastern Standard
Time (5 hours west) until 8 March 2026 07:00 UTC, Eastern Daylight Time (4 hours
west) from then until 1 November 2026 06:00 UTC, Eastern Standard Time after. -/
def newYork : Location :=
  ⟨-18000, [(739682 * 86400 + 7 * 3600, -14400), (739920 * 86400 + 6 * 3600, -18000)]⟩

/-- The clock reading 2 November 2026 12:00 UTC (07:00 Eastern Standard Time) on
a machine whose local zone is America/New_York, the day after the end of
daylight saving time. -/
def dstNow : Time := ⟨(739921 * 86400 + 12 * 3600) * 1000000000, newYork⟩

/-- A card last reviewed `daysAgo` days before `refNow`. -/
def reviewedCard (rating interval daysAgo : Int) : Card :=
  ⟨interval, rating, refNow.AddDate (-daysAgo)⟩

/-- A card that was never reviewed. -/
def freshCard : Card := ⟨0, 0, Time.zero⟩

/-- Fifty cards reviewed on the eve of `refNow`: 29 rated 4 and 21 rated 2. -/
def truncationDeck : Deck :=
  ⟨"deck-1", "Deck", List.replicate 29 (reviewedCard 4 1 1) ++ List.replicate 21 (reviewedCard 2 1 1),
    refNow.AddDate (-1)⟩

/-- Ten cards: four reviewed in the last 30 days with ratings 3, 4, 5 and 2,
four never reviewed, two reviewed 30 days ago and earlier. -/
def scenarioDeck : Deck :=
  ⟨"deck-2", "Scenario",
    [reviewedCard 3 1 1, freshCard, reviewedCard 4 6 2, reviewedCard 5 40 45, freshCard,
      reviewedCard 5 15 29, reviewedCard 1 25 30, freshCard, reviewedCard 2 1 3, freshCard],
    refNow.AddDate (-1)⟩

/-- A deck none of whose cards was reviewed in the last 30 days. -/
def staleDeck : Deck :=
  ⟨"deck-3", "Stale", [freshCard, reviewedCard 5 40 45, reviewedCard 1 25 30], refNow.AddDate (-30)⟩

/-- Two reviewed cards whose intervals add up to `2 ^ 63`. -/
def overflowDeck : Deck :=
  ⟨"deck-4", "Overflow", [reviewedCard 4 (2 ^ 62) 1, reviewedCard 4 (2 ^ 62) 2], refNow.AddDate (-1)⟩

/-- Three reviewed cards with intervals 1, 1 and 2, and one never scheduled. -/
def meanDeck : Deck :=
  ⟨"deck-5", "Mean", [reviewedCard 4 1 1, reviewedCard 2 1 40, freshCard, reviewedCard 5 2 400],
    refNow.AddDate (-1)⟩

/-- Two decks studied at the same most recent instant, after an older one. -/
def tieDecks : List Deck :=
  [⟨"deck-old", "Old", [], refNow.AddDate (-9)⟩, ⟨"deck-a", "A", [], refNow.AddDate (-2)⟩,
    ⟨"deck-b", "B", [], refNow.AddDate (-2)⟩]

/-- A store enumerating `tieDecks`, looked up by identifier. -/
def tieStore : Store :=
  ⟨tieDecks, fun id => tieDecks.find? (fun d => d.ID == id)⟩

/-- A store whose decks were never studied. -/
def unstudiedStore : Store :=
  ⟨[⟨"deck-n", "New", [freshCard], Time.zero⟩],
    fun id => if id = "deck-n" then some ⟨"deck-n", "New", [freshCard], Time.zero⟩ else none⟩

/-- Styles that leave the text unchanged. -/
def plainStyles : Styles := ⟨id, id, fun _ s => s, String.join, String.join⟩

/-- The menu as `NewMainMenu` creates it for a nil store argument. -/
def freshMenu : MainMenu := NewMainMenu unstudiedStore none

/-- The fresh menu with its cursor moved to an index. -/
def menuAt (cursor : Int) : MainMenu := { freshMenu with cursor := cursor }

/-- A menu in the middle of a session. -/
def usedMenu : MainMenu :=
  { freshMenu with cursor := 2, selected := 1, width := 120, height := 40 }

/-- The fresh menu after its cursor has reached the last item in a window of
height 24. -/
def lastItemMenu : MainMenu := { freshMenu with cursor := 3, width := 120, height := 24 }

/-- A sequence of events that never leaves the menu. -/
def sampleEvents : List Msg :=
  [Msg.KeyMsg "down", Msg.KeyMsg "j", Msg.WindowSizeMsg 80 24, Msg.KeyMsg "x", Msg.KeyMsg "up",
    Msg.KeyMsg "down", Msg.KeyMsg "down", Msg.KeyMsg "down", Msg.other]

/-- One card reviewed two days before `refNow` with the rating 7. -/
def outOfRangeDeck : Deck :=
  ⟨"deck-7", "Seven", [reviewedCard 7 1 2], refNow.AddDate (-2)⟩

/-! ## Loop lemmas -/

theorem successRate_foldl (now : Time) (cards : List Card) (a b : Int) :
    cards.foldl (successRateStep now) (a, b)
      = (a + ((cards.filter (reviewedInWindow now)).length : Nat),
         b + (((cards.filter (reviewedInWindow now)).filter
                (fun c => decide (c.Rating ≥ 3))).length : Nat)) := by
  induction cards generalizing a b with
  | nil => simp
  | cons c cs ih =>
    rw [List.foldl_cons, List.filter_cons]
    by_cases hw : reviewedInWindow now c = true
    · by_cases hr : c.Rating ≥ 3
      · simp [successRateStep, hw, hr, ih]
        constructor <;> omega
      · simp [successRateStep, hw, hr, ih]
        omega
    · simp [successRateStep, hw, ih]

/-- The success rate in terms of the two counts of the window. -/
theorem calculateDeckSuccessRate_eq (deck : Deck) (now : Time) :
    calculateDeckSuccessRate deck now
      = if (windowCards deck now).length = 0 then 0
        else floatPercent (((windowCards deck now).filter
                (fun c => decide (c.Rating ≥ 3))).length : Nat)
              ((windowCards deck now).length : Nat) := by
  unfold calculateDeckSuccessRate windowCards
  rw [successRate_foldl]
  by_cases h : (List.filter (reviewedInWindow now) deck.Cards).length = 0
  · simp [h]
  · have h2 : ¬ (((List.filter (reviewedInWindow now) deck.Cards).length : Nat) : Int) = 0 := by
      exact_mod_cast h
    simp [h, h2]

theorem matureCards_foldl (cards : List Card) (a : Int) :
    cards.foldl (fun count card => if card.Interval ≥ 21 then count + 1 else count) a
      = a + ((cards.countP (fun c => decide (c.Interval ≥ 21))) : Nat) := by
  induction cards generalizing a with
  | nil => simp
  | cons c cs ih =>
    rw [List.foldl_cons, ih]
    by_cases h : c.Interval ≥ 21
    · simp [h, List.countP_cons]
      omega
    · simp [h, List.countP_cons]

theorem ratingDistributionStep_five (now : Time) (c : Card) (a1 a2 a3 a4 a5 : Int) :
    ratingDistributionStep now (fiveBuckets a1 a2 a3 a4 a5) c
      = fiveBuckets (a1 + bucketHit now c 1) (a2 + bucketHit now c 2) (a3 + bucketHit now c 3)
          (a4 + bucketHit now c 4) (a5 + bucketHit now c 5) := by
  by_cases hw : reviewedInWindow now c = true
  · by_cases hr : 1 ≤ c.Rating ∧ c.Rating ≤ 5
    · have h5 : c.Rating = 1 ∨ c.Rating = 2 ∨ c.Rating = 3 ∨ c.Rating = 4 ∨ c.Rating = 5 := by
        omega
      rcases h5 with h | h | h | h | h <;>
        simp [ratingDistributionStep, fiveBuckets, bucketHit, IntMap.set, IntMap.get, hw, h]
    · have h1 : c.Rating ≠ 1 := by omega
      have h2 : c.Rating ≠ 2 := by omega
      have h3 : c.Rating ≠ 3 := by omega
      have h4 : c.Rating ≠ 4 := by omega
      have h5 : c.Rating ≠ 5 := by omega
      have hlt : ¬ (1 ≤ c.Rating) ∨ ¬ (c.Rating ≤ 5) := by omega
      rcases hlt with h | h <;>
        simp [ratingDistributionStep, fiveBuckets, bucketHit, hw, h, h1, h2, h3, h4, h5]
  · simp [ratingDistributionStep, fiveBuckets, bucketHit, hw]

theorem ratingCount_cons (now : Time) (c : Card) (cs : List Card) (r : Int) :
    ratingCount ((c :: cs).filter (reviewedInWindow now)) r
      = bucketHit now c r + ratingCount (cs.filter (reviewedInWindow now)) r := by
  unfold ratingCount bucketHit
  rw [List.filter_cons]
  by_cases hw : reviewedInWindow now c = true
  · by_cases hr : c.Rating = r
    · simp [hw, hr, List.countP_cons]
      omega
    · simp [hw, hr, List.countP_cons]
  · simp [hw]

theorem ratingDistribution_foldl (now : Time) (cards : List Card) (a1 a2 a3 a4 a5 : Int) :
    cards.foldl (ratingDistributionStep now) (fiveBuckets a1 a2 a3 a4 a5)
      = fiveBuckets (a1 + ratingCount (cards.filter (reviewedInWindow now)) 1)
          (a2 + ratingCount (cards.filter (reviewedInWindow now)) 2)
          (a3 + ratingCount (cards.filter (reviewedInWindow now)) 3)
          (a4 + ratingCount (cards.filter (reviewedInWindow now)) 4)
          (a5 + ratingCount (cards.filter (reviewedInWindow now)) 5) := by
  induction cards generalizing a1 a2 a3 a4 a5 with
  | nil => simp [ratingCount]
  | cons c cs ih =>
    rw [List.foldl_cons, ratingDistributionStep_five, ih]
    simp only [ratingCount_cons, add_assoc]

/-- The rating distribution is the five buckets holding the per-rating counts of
the cards reviewed inside the window. -/
theorem calculateDeckRatingDistribution_eq (deck : Deck) (now : Time) :
    calculateDeckRatingDistribution deck now
      = fiveBuckets (ratingCount (windowCards deck now) 1) (ratingCount (windowCards deck now) 2)
          (ratingCount (windowCards deck now) 3) (ratingCount (windowCards deck now) 4)
          (ratingCount (windowCards deck now) 5) := by
  have h0 : ([1, 2, 3, 4, 5].foldl (fun m i => IntMap.set m i 0) ([] : IntMap))
      = fiveBuckets 0 0 0 0 0 := by
    simp [fiveBuckets, IntMap.set]
  unfold calculateDeckRatingDistribution windowCards
  simp only [h0]
  rw [ratingDistribution_foldl]
  simp

theorem ratingCount_filter (p : Card → Bool) (cards : List Card) (r : Int) :
    ratingCount (cards.filter p) r
      = ((cards.countP (fun c => p c && decide (c.Rating = r))) : Nat) := by
  unfold ratingCount
  rw [List.countP_filter]
  congr 2
  funext c
  exact Bool.and_comm _ _

theorem countP_rating_sum (p : Card → Bool) (cards : List Card) :
    ((cards.countP (fun c => p c && decide (c.Rating = 1)) : Nat) : Int)
      + (cards.countP (fun c => p c && decide (c.Rating = 2)) : Nat)
      + (cards.countP (fun c => p c && decide (c.Rating = 3)) : Nat)
      + (cards.countP (fun c => p c && decide (c.Rating = 4)) : Nat)
      + (cards.countP (fun c => p c && decide (c.Rating = 5)) : Nat)
      = (cards.countP (fun c => p c && decide (1 ≤ c.Rating) && decide (c.Rating ≤ 5)) : Nat) := by
  induction cards with
  | nil => simp
  | cons c cs ih =>
    simp only [List.countP_cons]
    push_cast
    rw [← ih]
    by_cases hp : p c = true
    · by_cases hr : 1 ≤ c.Rating ∧ c.Rating ≤ 5
      · have h5 : c.Rating = 1 ∨ c.Rating = 2 ∨ c.Rating = 3 ∨ c.Rating = 4 ∨ c.Rating = 5 := by
          omega
        rcases h5 with h | h | h | h | h <;> simp [hp, h] <;> omega
      · have h1 : c.Rating ≠ 1 := by omega
        have h2 : c.Rating ≠ 2 := by omega
        have h3 : c.Rating ≠ 3 := by omega
        have h4 : c.Rating ≠ 4 := by omega
        have h5 : c.Rating ≠ 5 := by omega
        have hlt : ¬ (1 ≤ c.Rating) ∨ ¬ (c.Rating ≤ 5) := by omega
        rcases hlt with h | h <;> simp [hp, h, h1, h2, h3, h4, h5]
    · simp [hp]

/-- C2. For every deck and every `now`, the rating distribution has exactly the
keys 1, 2, 3, 4, 5; the value of each key `r` is the number of cards reviewed
inside the 30-day window whose rating is `r`; the five values sum to the number
of cards reviewed inside the window with a rating between 1 and 5; and dropping
every card outside the window or with an out-of-range rating leaves the map
unchanged. -/
theorem calculateDeckRatingDistribution_buckets (deck : Deck) (now : Time) :
    (calculateDeckRatingDistribution deck now).keys = [1, 2, 3, 4, 5]
    ∧ (∀ r : Int, 1 ≤ r → r ≤ 5 →
        (calculateDeckRatingDistribution deck now).get r
          = (deck.Cards.countP (fun c => reviewedInWindow now c && decide (c.Rating = r)) : Nat))
    ∧ (calculateDeckRatingDistribution deck now).get 1
        + (calculateDeckRatingDistribution deck now).get 2
        + (calculateDeckRatingDistribution deck now).get 3
        + (calculateDeckRatingDistribution deck now).get 4
        + (calculateDeckRatingDistribution deck now).get 5
        = (deck.Cards.countP (fun c => reviewedInWindow now c && decide (1 ≤ c.Rating)
              && decide (c.Rating ≤ 5)) : Nat)
    ∧ calculateDeckRatingDistribution deck now
        = calculateDeckRatingDistribution
            { deck with Cards := deck.Cards.filter (fun c => reviewedInWindow now c
                && decide (1 ≤ c.Rating) && decide (c.Rating ≤ 5)) } now := by
  have hget : ∀ r : Int, 1 ≤ r → r ≤ 5 →
      (calculateDeckRatingDistribution deck now).get r
        = (deck.Cards.countP (fun c => reviewedInWindow now c && decide (c.Rating = r)) : Nat) := by
    intro r h1 h5
    rw [calculateDeckRatingDistribution_eq]
    unfold windowCards
    have hr : r = 1 ∨ r = 2 ∨ r = 3 ∨ r = 4 ∨ r = 5 := by omega
    rcases hr with h | h | h | h | h <;> subst h <;>
      simp [fiveBuckets, IntMap.get, ratingCount_filter]
  refine ⟨?_, hget, ?_, ?_⟩
  · rw [calculateDeckRatingDistribution_eq]
    simp [fiveBuckets, IntMap.keys]
  · rw [hget 1 (by decide) (by decide), hget 2 (by decide) (by decide),
      hget 3 (by decide) (by decide), hget 4 (by decide) (by decide),
      hget 5 (by decide) (by decide)]
    exact countP_rating_sum (reviewedInWindow now) deck.Cards
  · rw [calculateDeckRatingDistribution_eq, calculateDeckRatingDistribution_eq]
    unfold windowCards
    have key : ∀ r : Int, 1 ≤ r → r ≤ 5 →
        ratingCount (List.filter (reviewedInWindow now) deck.Cards) r
          = ratingCount (List.filter (reviewedInWindow now)
              (List.filter (fun c => reviewedInWindow now c && decide (1 ≤ c.Rating)
                && decide (c.Rating ≤ 5)) deck.Cards)) r := by
      intro r h1 h5
      rw [ratingCount_filter, ratingCount_filter, List.countP_filter]
      congr 2
      funext c
      by_cases hw : reviewedInWindow now c = true
      · by_cases hr : c.Rating = r
        · have g1 : 1 ≤ c.Rating := by omega
          have g5 : c.Rating ≤ 5 := by omega
          simp [hw, hr, h1, h5]
        · simp [hw, hr]
      · simp [hw]
    simp only [← key 1 (by decide) (by decide), ← key 2 (by decide) (by decide),
      ← key 3 (by decide) (by decide), ← key 4 (by decide) (by decide),
      ← key 5 (by decide) (by decide)]

/-- C4. For every deck, `getDeckMatureCards` is the number of cards with
`Interval >= 21`; adding the number of cards with `Interval < 21` gives the
number of cards of the deck; so the new-cards figure of `renderDeckReviewStats`
(total minus mature) is the number of cards with `Interval < 21` and is not
negative. -/
theorem getDeckMatureCards_partition (deck : Deck) :
    getDeckMatureCards deck = (deck.Cards.countP (fun c => decide (c.Interval ≥ 21)) : Nat)
    ∧ getDeckMatureCards deck + (deck.Cards.countP (fun c => decide (c.Interval < 21)) : Nat)
        = (deck.Cards.length : Nat)
    ∧ deckNewCards deck = (deck.Cards.countP (fun c => decide (c.Interval < 21)) : Nat)
    ∧ 0 ≤ deckNewCards deck := by
  have hm : getDeckMatureCards deck
      = (deck.Cards.countP (fun c => decide (c.Interval ≥ 21)) : Nat) := by
    unfold getDeckMatureCards
    rw [matureCards_foldl]
    simp
  have hsplit := List.length_eq_countP_add_countP (fun c : Card => decide (c.Interval ≥ 21))
    deck.Cards
  have hneg : deck.Cards.countP (fun c => decide (c.Interval < 21))
      = deck.Cards.countP (fun c => ¬ (decide (c.Interval ≥ 21)) = true) := by
    congr 1
    funext c
    simp
  unfold deckNewCards
  rw [hm, hneg]
  refine ⟨rfl, ?_, ?_, ?_⟩ <;> omega

theorem renderRatingsDistribution_empty (st : Styles) :
    renderRatingsDistribution st (fiveBuckets 0 0 0 0 0) = "No ratings data available" := by
  simp [renderRatingsDistribution, fiveBuckets, wrapInt64]

set_option maxRecDepth 8000 in
/-- C1. At a deck of fifty cards reviewed inside the window, 29 of them with
`Rating >= 3`, `calculateDeckSuccessRate` returns 57, whereas the truncated
percentage `floor(100 * 29 / 50)` is 58: the quotient 29/50 rounded to a
`float64` lies below 0.58, its product with 100 lies below 58, and the
conversion to `int` discards the fraction. -/
theorem calculateDeckSuccessRate_truncationDeck :
    (windowCards truncationDeck refNow).length = 50
    ∧ ((windowCards truncationDeck refNow).filter (fun c => decide (c.Rating ≥ 3))).length = 29
    ∧ calculateDeckSuccessRate truncationDeck refNow = 57
    ∧ (100 * 29 : Int) / 50 = 58 := by
  decide

/-- C5. For every deck and every `now` such that no card of the deck has a
non-zero `LastReviewed` inside the 30-day window, `calculateDeckSuccessRate`
returns 0 and `renderRatingsDistribution` applied to the rating distribution of
the deck returns the single message "No ratings data available". -/
theorem no_recent_review_no_data (st : Styles) (deck : Deck) (now : Time)
    (h : ∀ c ∈ deck.Cards, reviewedInWindow now c = false) :
    calculateDeckSuccessRate deck now = 0
    ∧ renderRatingsDistribution st (calculateDeckRatingDistribution deck now)
        = "No ratings data available" := by
  have hw : windowCards deck now = [] := by
    unfold windowCards
    rw [List.filter_eq_nil_iff]
    intro c hc
    simp [h c hc]
  constructor
  · rw [calculateDeckSuccessRate_eq, hw]
    simp
  · rw [calculateDeckRatingDistribution_eq, hw]
    simpa [ratingCount] using renderRatingsDistribution_empty st

theorem no_recent_review_no_data_witness :
    (∀ c ∈ staleDeck.Cards, reviewedInWindow refNow c = false)
    ∧ calculateDeckSuccessRate staleDeck refNow = 0
    ∧ renderRatingsDistribution plainStyles
        (calculateDeckRatingDistribution staleDeck refNow) = "No ratings data available" :=
  ⟨by decide, no_recent_review_no_data plainStyles staleDeck refNow (by decide)⟩

set_option maxRecDepth 8000 in
theorem floatPercent_three_of_four : floatPercent 3 4 = 75 := by decide

/-- C6. Whenever exactly four cards of a deck were reviewed inside the 30-day
window, with ratings 3, 4, 5 and 2 (in any order, among any other cards never
reviewed or reviewed outside the window), `calculateDeckSuccessRate` returns 75
and `calculateDeckRatingDistribution` returns the map 1:0, 2:1, 3:1, 4:1, 5:1. -/
theorem scenario_four_recent_reviews (deck : Deck) (now : Time)
    (h : ((windowCards deck now).map Card.Rating).Perm [3, 4, 5, 2]) :
    calculateDeckSuccessRate deck now = 75
    ∧ calculateDeckRatingDistribution deck now = [(1, 0), (2, 1), (3, 1), (4, 1), (5, 1)] := by
  have hlen : (windowCards deck now).length = 4 := by
    have := h.length_eq
    simpa using this
  have hsucc : ((windowCards deck now).filter (fun c => decide (c.Rating ≥ 3))).length = 3 := by
    rw [← List.countP_eq_length_filter]
    have h1 : (windowCards deck now).countP (fun c => decide (c.Rating ≥ 3))
        = ((windowCards deck now).map Card.Rating).countP (fun r => decide (r ≥ 3)) := by
      rw [List.countP_map]
      rfl
    rw [h1, h.countP_eq]
    decide
  have hcount : ∀ r : Int, ratingCount (windowCards deck now) r
      = (([3, 4, 5, 2] : List Int).countP (fun x => decide (x = r)) : Nat) := by
    intro r
    unfold ratingCount
    have h1 : (windowCards deck now).countP (fun c => decide (c.Rating = r))
        = ((windowCards deck now).map Card.Rating).countP (fun x => decide (x = r)) := by
      rw [List.countP_map]
      rfl
    rw [h1, h.countP_eq]
  constructor
  · rw [calculateDeckSuccessRate_eq, hlen, hsucc]
    simpa using floatPercent_three_of_four
  · rw [calculateDeckRatingDistribution_eq, hcount 1, hcount 2, hcount 3, hcount 4, hcount 5]
    decide

theorem scenario_four_recent_reviews_witness :
    scenarioDeck.Cards.length = 10
    ∧ ((windowCards scenarioDeck refNow).map Card.Rating).Perm [3, 4, 5, 2]
    ∧ calculateDeckSuccessRate scenarioDeck refNow = 75
    ∧ calculateDeckRatingDistribution scenarioDeck refNow
        = [(1, 0), (2, 1), (3, 1), (4, 1), (5, 1)] :=
  ⟨by decide, by decide, scenario_four_recent_reviews scenarioDeck refNow (by decide)⟩

/-! ## The most recently studied deck -/

theorem lastStudied_foldl_unchanged (decks : List Deck) (t : Time) (id : String)
    (h : ∀ d ∈ decks, d.LastStudied.ns ≤ t.ns) :
    decks.foldl lastStudiedStep (t, id) = (t, id) := by
  induction decks with
  | nil => rfl
  | cons d ds ih =>
    have hd : ¬ t.ns < d.LastStudied.ns := by
      have := h d (List.mem_cons_self _ _)
      omega
    rw [List.foldl_cons]
    have hstep : lastStudiedStep (t, id) d = (t, id) := by
      simp [lastStudiedStep, Time.After, hd]
    rw [hstep]
    exact ih (fun x hx => h x (List.mem_cons_of_mem _ hx))

theorem lastStudied_foldl_below (decks : List Deck) (t : Time) (id : String) (bound : Int)
    (ht : t.ns < bound) (h : ∀ d ∈ decks, d.LastStudied.ns < bound) :
    (decks.foldl lastStudiedStep (t, id)).1.ns < bound := by
  induction decks generalizing t id with
  | nil => simpa using ht
  | cons d ds ih =>
    rw [List.foldl_cons]
    by_cases hd : t.ns < d.LastStudied.ns
    · have hstep : lastStudiedStep (t, id) d = (d.LastStudied, d.ID) := by
        simp [lastStudiedStep, Time.After, hd]
      rw [hstep]
      exact ih _ _ (h d (List.mem_cons_self _ _)) (fun x hx => h x (List.mem_cons_of_mem _ hx))
    · have hstep : lastStudiedStep (t, id) d = (t, id) := by
        simp [lastStudiedStep, Time.After, hd]
      rw [hstep]
      exact ih _ _ ht (fun x hx => h x (List.mem_cons_of_mem _ hx))

/-- The scan stops at the first deck that carries the latest timestamp. -/
theorem lastStudied_foldl_first_max (pre post : List Deck) (d : Deck) (t : Time) (id : String)
    (ht : t.ns < d.LastStudied.ns)
    (hpre : ∀ x ∈ pre, x.LastStudied.ns < d.LastStudied.ns)
    (hpost : ∀ x ∈ post, x.LastStudied.ns ≤ d.LastStudied.ns) :
    (pre ++ d :: post).foldl lastStudiedStep (t, id) = (d.LastStudied, d.ID) := by
  rw [List.foldl_append, List.foldl_cons]
  have hb := lastStudied_foldl_below pre t id d.LastStudied.ns ht hpre
  have hstep : lastStudiedStep (pre.foldl lastStudiedStep (t, id)) d = (d.LastStudied, d.ID) := by
    simp [lastStudiedStep, Time.After, hb]
  rw [hstep]
  exact lastStudied_foldl_unchanged post _ _ hpost

/-- The scan ends either on its initial state or on a deck of the sequence; in
both cases no deck is later than the instant it ends on. -/
theorem lastStudied_foldl_max (decks : List Deck) (t : Time) (id : String) :
    t.ns ≤ (decks.foldl lastStudiedStep (t, id)).1.ns
    ∧ (∀ d ∈ decks, d.LastStudied.ns ≤ (decks.foldl lastStudiedStep (t, id)).1.ns)
    ∧ (decks.foldl lastStudiedStep (t, id) = (t, id)
        ∨ ∃ d ∈ decks, decks.foldl lastStudiedStep (t, id) = (d.LastStudied, d.ID)) := by
  induction decks generalizing t id with
  | nil => simp
  | cons d ds ih =>
    rw [List.foldl_cons]
    by_cases hd : t.ns < d.LastStudied.ns
    · have hstep : lastStudiedStep (t, id) d = (d.LastStudied, d.ID) := by
        simp [lastStudiedStep, Time.After, hd]
      rw [hstep]
      obtain ⟨h1, h2, h3⟩ := ih d.LastStudied d.ID
      refine ⟨by omega, ?_, ?_⟩
      · intro x hx
        rcases List.mem_cons.mp hx with rfl | hx
        · exact h1
        · exact h2 x hx
      · right
        rcases h3 with h3 | ⟨x, hx, h3⟩
        · exact ⟨d, List.mem_cons_self _ _, h3⟩
        · exact ⟨x, List.mem_cons_of_mem _ hx, h3⟩
    · have hstep : lastStudiedStep (t, id) d = (t, id) := by
        simp [lastStudiedStep, Time.After, hd]
      rw [hstep]
      obtain ⟨h1, h2, h3⟩ := ih t id
      refine ⟨h1, ?_, ?_⟩
      · intro x hx
        rcases List.mem_cons.mp hx with rfl | hx
        · omega
        · exact h2 x hx
      · rcases h3 with h3 | ⟨x, hx, h3⟩
        · exact Or.inl h3
        · exact Or.inr ⟨x, List.mem_cons_of_mem _ hx, h3⟩

theorem getLastStudiedDeckID_unstudied (store : Store)
    (h : ∀ d ∈ store.GetDecks, d.LastStudied.After Time.zero = false) :
    getLastStudiedDeckID store = "" := by
  unfold getLastStudiedDeckID
  rw [lastStudied_foldl_unchanged]
  intro d hd
  have := h d hd
  simpa [Time.After, Time.zero] using this

/-- C8. For every sequence of decks returned by `GetDecks`: if at least one deck
has `LastStudied` after the zero timestamp, `getLastStudiedDeckID` returns the
identifier of a deck of the sequence than which no deck has a later
`LastStudied`; if no deck has `LastStudied` after the zero timestamp (the empty
sequence included), it returns the empty string. -/
theorem getLastStudiedDeckID_latest (store : Store) :
    ((∃ d ∈ store.GetDecks, d.LastStudied.After Time.zero = true) →
      ∃ d ∈ store.GetDecks, getLastStudiedDeckID store = d.ID
        ∧ ∀ x ∈ store.GetDecks, x.LastStudied.After d.LastStudied = false)
    ∧ ((∀ d ∈ store.GetDecks, d.LastStudied.After Time.zero = false) →
      getLastStudiedDeckID store = "") := by
  refine ⟨?_, getLastStudiedDeckID_unstudied store⟩
  rintro ⟨d0, hd0, hafter⟩
  obtain ⟨_, h2, h3⟩ := lastStudied_foldl_max store.GetDecks Time.zero ""
  have hpos : (0 : Int) < d0.LastStudied.ns := by
    simpa [Time.After, Time.zero] using hafter
  rcases h3 with h3 | ⟨d, hd, h3⟩
  · have := h2 d0 hd0
    rw [h3] at this
    simp [Time.zero] at this
    omega
  · refine ⟨d, hd, ?_, ?_⟩
    · unfold getLastStudiedDeckID
      rw [h3]
    · intro x hx
      have := h2 x hx
      rw [h3] at this
      simp only [Time.After, decide_eq_false_iff_not]
      simp at this
      omega

theorem getLastStudiedDeckID_latest_witness :
    (∃ d ∈ tieStore.GetDecks, getLastStudiedDeckID tieStore = d.ID
        ∧ ∀ x ∈ tieStore.GetDecks, x.LastStudied.After d.LastStudied = false)
    ∧ getLastStudiedDeckID unstudiedStore = "" :=
  ⟨(getLastStudiedDeckID_latest tieStore).1 (by decide),
    (getLastStudiedDeckID_latest unstudiedStore).2 (by decide)⟩

/-- C9, as stated, fails: of two decks sharing the most recent `LastStudied`,
`getLastStudiedDeckID` resolves to the one enumerated first, not last. -/
theorem getLastStudiedDeckID_tie_not_last :
    tieStore.GetDecks.map Deck.ID = ["deck-old", "deck-a", "deck-b"]
    ∧ tieStore.GetDecks.map (fun d => d.LastStudied.ns - refNow.ns)
        = [-9 * Time.day, -2 * Time.day, -2 * Time.day]
    ∧ getLastStudiedDeckID tieStore = "deck-a"
    ∧ getLastStudiedDeckID tieStore ≠ "deck-b" := by
  decide

/-- C9, amended. When several decks share the same most recent `LastStudied`
timestamp (later than the zero timestamp), `getLastStudiedDeckID` resolves to
whichever of them is encountered first during the enumeration of `GetDecks`:
the deck all of whose predecessors are strictly older and none of whose
successors is more recent. -/
theorem getLastStudiedDeckID_tie_first (store : Store) (pre post : List Deck) (d : Deck)
    (hdecks : store.GetDecks = pre ++ d :: post)
    (hstudied : d.LastStudied.After Time.zero = true)
    (hpre : ∀ x ∈ pre, d.LastStudied.After x.LastStudied = true)
    (hpost : ∀ x ∈ post, x.LastStudied.After d.LastStudied = false) :
    getLastStudiedDeckID store = d.ID := by
  unfold getLastStudiedDeckID
  rw [hdecks, lastStudied_foldl_first_max]
  · simpa [Time.After, Time.zero] using hstudied
  · intro x hx
    simpa [Time.After] using hpre x hx
  · intro x hx
    have := hpost x hx
    simp only [Time.After, decide_eq_false_iff_not] at this
    omega

theorem getLastStudiedDeckID_tie_first_witness :
    getLastStudiedDeckID tieStore = "deck-a" :=
  getLastStudiedDeckID_tie_first tieStore [⟨"deck-old", "Old", [], refNow.AddDate (-9)⟩]
    [⟨"deck-b", "B", [], refNow.AddDate (-2)⟩] ⟨"deck-a", "A", [], refNow.AddDate (-2)⟩
    (by decide) (by decide) (by decide) (by decide)

/-- C7. For every store and every non-empty `focusDeckID` that `GetDeck` does
not find, `renderDeckReviewStats` returns exactly "Selected deck not found.";
for an empty `focusDeckID` in a store where no deck has a `LastStudied` later
than the zero timestamp, it returns exactly "No deck available to show
statistics."; and the two messages are different strings. -/
theorem renderDeckReviewStats_messages (st : Styles) (store : Store) (focusDeckID : String)
    (now1 now2 now3 : Time) :
    (focusDeckID ≠ "" → store.GetDeck focusDeckID = none →
      renderDeckReviewStats st store focusDeckID now1 now2 now3 = "Selected deck not found.")
    ∧ ((∀ d ∈ store.GetDecks, d.LastStudied.After Time.zero = false) →
      renderDeckReviewStats st store "" now1 now2 now3 = "No deck available to show statistics.")
    ∧ "Selected deck not found." ≠ "No deck available to show statistics." := by
  refine ⟨?_, ?_, by decide⟩
  · intro hne hnone
    simp [renderDeckReviewStats, hne, hnone]
  · intro h
    simp [renderDeckReviewStats, getLastStudiedDeckID_unstudied store h]

theorem renderDeckReviewStats_messages_witness :
    renderDeckReviewStats plainStyles tieStore "deck-x" refNow refNow refNow
        = "Selected deck not found."
    ∧ renderDeckReviewStats plainStyles unstudiedStore "" refNow refNow refNow
        = "No deck available to show statistics." :=
  ⟨(renderDeckReviewStats_messages plainStyles tieStore "deck-x" refNow refNow refNow).1
      (by decide) (by decide),
    (renderDeckReviewStats_messages plainStyles unstudiedStore "" refNow refNow refNow).2.1
      (by decide)⟩

/-! ## The last studied text -/

theorem monthAbbrev_mem (month : Nat) :
    Time.monthAbbrev month ∈ ["Jan", "Feb", "Mar", "Apr", "May", "Jun", "Jul", "Aug", "Sep",
      "Oct", "Nov", "Dec"] := by
  unfold Time.monthAbbrev
  split <;> simp

/-- A month/day text is none of the three words of `formatLastStudied`. -/
theorem FormatJan2_not_word (t : Time) :
    t.FormatJan2 ≠ "Never" ∧ t.FormatJan2 ≠ "Today" ∧ t.FormatJan2 ≠ "Yesterday" := by
  unfold Time.FormatJan2
  have hm := monthAbbrev_mem (Time.monthDay t).1
  generalize Time.monthAbbrev (Time.monthDay t).1 = name at hm
  generalize toString (Time.monthDay t).2 = rest
  simp only [List.mem_cons, List.mem_singleton, List.not_mem_nil, or_false] at hm
  refine ⟨?_, ?_, ?_⟩ <;>
    · intro h
      have h2 := congrArg String.data h
      rcases hm with hm | hm | hm | hm | hm | hm | hm | hm | hm | hm | hm | hm <;>
        · subst hm
          simp [String.data_append] at h2

theorem truncate_day_shift (n k : Int) (l : Location) :
    (Time.Truncate ⟨n + k * Time.day, l⟩ Time.day).ns
      = (Time.Truncate ⟨n, l⟩ Time.day).ns + k * Time.day := by
  have hd : ¬ Time.day ≤ 0 := by decide
  simp only [Time.Truncate, hd, if_false]
  rw [Int.add_mul_emod_self]
  omega

/-- In a location without transitions `AddDate(0, 0, days)` moves the instant by
`days` times 24 hours. -/
theorem AddDate_fixed_offset (t : Time) (days : Int) (h : t.loc.tx = []) :
    t.AddDate days = ⟨t.ns + days * Time.day, t.loc⟩ := by
  have hlook : ∀ sec : Int, t.loc.lookup sec = (t.loc.firstOffset, none, none) := by
    intro sec
    simp [Location.lookup, h, Location.lookupFrom]
  have hsplit := Int.ediv_add_emod t.ns 1000000000
  have hday : Time.day = 86400 * 1000000000 := by decide
  unfold Time.AddDate Time.wallSeconds
  simp only [hlook, Bool.or_self, Bool.false_eq_true, if_false]
  congr 1
  by_cases hf : t.loc.firstOffset = 0
  · simp only [hf, ne_eq, not_true_eq_false, if_false]
    rw [hday]
    omega
  · simp only [hf, ne_eq, not_false_eq_true, if_true]
    rw [hday]
    omega

set_option maxRecDepth 8000 in
/-- C10. On a machine in the zone America/New_York whose clock reads 2 November
2026 12:00 UTC, the day after daylight saving time ended, `formatLastStudied` of
`now` minus one day (the same time of day, 24 hours earlier) returns "Nov 1",
not "Yesterday": the midnight `today` is truncated in UTC but
`today.AddDate(0, 0, -1)` is taken on the local calendar and lands 25 hours
before it, so it is not the truncated day of the instant. On a machine in UTC
the same instants give "Yesterday". -/
theorem formatLastStudied_after_dst_change :
    dstNow.AddDate (-1) = ⟨dstNow.ns - Time.day, newYork⟩
    ∧ formatLastStudied (dstNow.AddDate (-1)) dstNow = "Nov 1"
    ∧ formatLastStudied (dstNow.AddDate (-1)) dstNow ≠ "Yesterday"
    ∧ ((dstNow.Truncate Time.day).AddDate (-1)).ns
        = (dstNow.Truncate Time.day).ns - 25 * 3600 * 1000000000
    ∧ ((dstNow.AddDate (-1)).Truncate Time.day).ns = (dstNow.Truncate Time.day).ns - Time.day
    ∧ formatLastStudied ⟨dstNow.ns - Time.day, Location.UTC⟩ ⟨dstNow.ns, Location.UTC⟩
        = "Yesterday" := by
  decide

/-- Where the local zone has no transitions (UTC or any fixed offset), for every
`now`: `formatLastStudied` of the zero timestamp returns "Never"; of `now`
itself returns "Today"; of `now` minus one day returns "Yesterday"; and of `now`
minus eight days returns the month/day text of that date, which is none of
"Never", "Today" and "Yesterday"; in each of the last three cases provided the
argument is not the zero timestamp, which no reading of a clock makes it. -/
theorem formatLastStudied_fixed_offset (now : Time) (hloc : now.loc.tx = []) :
    formatLastStudied Time.zero now = "Never"
    ∧ (now.IsZero = false → formatLastStudied now now = "Today")
    ∧ ((now.AddDate (-1)).IsZero = false →
        formatLastStudied (now.AddDate (-1)) now = "Yesterday")
    ∧ ((now.AddDate (-8)).IsZero = false →
        formatLastStudied (now.AddDate (-8)) now = (now.AddDate (-8)).FormatJan2
        ∧ formatLastStudied (now.AddDate (-8)) now ≠ "Never"
        ∧ formatLastStudied (now.AddDate (-8)) now ≠ "Today"
        ∧ formatLastStudied (now.AddDate (-8)) now ≠ "Yesterday") := by
  obtain ⟨n, l⟩ := now
  have hl : l.tx = [] := hloc
  have hday : (0 : Int) < Time.day := by decide
  have hdpos : ¬ Time.day ≤ 0 := by decide
  have htoday : (Time.Truncate ⟨n, l⟩ Time.day).AddDate (-1)
      = ⟨(Time.Truncate ⟨n, l⟩ Time.day).ns + -1 * Time.day, l⟩ := by
    have hl2 : (Time.Truncate ⟨n, l⟩ Time.day).loc = l := by
      simp [Time.Truncate, hdpos]
    have := AddDate_fixed_offset (Time.Truncate ⟨n, l⟩ Time.day) (-1) (by rw [hl2]; exact hl)
    rw [this, hl2]
  refine ⟨by simp [formatLastStudied, Time.IsZero, Time.zero], ?_, ?_, ?_⟩
  · intro h
    simp [formatLastStudied, h, Time.Equal]
  · intro h
    have hA : Time.AddDate ⟨n, l⟩ (-1) = ⟨n + -1 * Time.day, l⟩ :=
      AddDate_fixed_offset ⟨n, l⟩ (-1) hl
    rw [hA] at h ⊢
    have h1 := truncate_day_shift n (-1) l
    have he1 : Time.Equal (Time.Truncate ⟨n + -1 * Time.day, l⟩ Time.day)
        (Time.Truncate ⟨n, l⟩ Time.day) = false := by
      simp only [Time.Equal, decide_eq_false_iff_not]
      omega
    have he2 : Time.Equal (Time.Truncate ⟨n + -1 * Time.day, l⟩ Time.day)
        ((Time.Truncate ⟨n, l⟩ Time.day).AddDate (-1)) = true := by
      rw [htoday]
      simp only [Time.Equal, decide_eq_true_eq]
      exact h1
    unfold formatLastStudied
    simp only [h, he1, he2]
    rfl
  · intro h
    have hA : Time.AddDate ⟨n, l⟩ (-8) = ⟨n + -8 * Time.day, l⟩ :=
      AddDate_fixed_offset ⟨n, l⟩ (-8) hl
    rw [hA] at h ⊢
    have h8 := truncate_day_shift n (-8) l
    have he1 : Time.Equal (Time.Truncate ⟨n + -8 * Time.day, l⟩ Time.day)
        (Time.Truncate ⟨n, l⟩ Time.day) = false := by
      simp only [Time.Equal, decide_eq_false_iff_not]
      omega
    have he2 : Time.Equal (Time.Truncate ⟨n + -8 * Time.day, l⟩ Time.day)
        ((Time.Truncate ⟨n, l⟩ Time.day).AddDate (-1)) = false := by
      rw [htoday]
      simp only [Time.Equal, decide_eq_false_iff_not]
      omega
    have heq : formatLastStudied ⟨n + -8 * Time.day, l⟩ ⟨n, l⟩
        = Time.FormatJan2 ⟨n + -8 * Time.day, l⟩ := by
      unfold formatLastStudied
      simp only [h, he1, he2]
      rfl
    rw [heq]
    exact ⟨rfl, FormatJan2_not_word _⟩

/-! ## The average interval -/

theorem wrapInt64_add_left (x y : Int) : wrapInt64 (wrapInt64 x + y) = wrapInt64 (x + y) := by
  unfold wrapInt64
  omega

theorem wrapInt64_of_range (x : Int) (h0 : 0 ≤ x) (h1 : x < 2 ^ 63) : wrapInt64 x = x := by
  unfold wrapInt64
  omega

theorem averageInterval_foldl (cards : List Card) (a b : Int) :
    cards.foldl averageIntervalStep (a, wrapInt64 b)
      = (a + ((cards.filter
                (fun c => !c.LastReviewed.IsZero && decide (c.Interval > 0))).length : Nat),
         wrapInt64 (b + ((cards.filter
                (fun c => !c.LastReviewed.IsZero && decide (c.Interval > 0))).map
                  Card.Interval).sum)) := by
  induction cards generalizing a b with
  | nil => simp
  | cons c cs ih =>
    rw [List.foldl_cons, List.filter_cons]
    by_cases hq : (!c.LastReviewed.IsZero && decide (c.Interval > 0)) = true
    · have hstep : averageIntervalStep (a, wrapInt64 b) c
          = (a + 1, wrapInt64 (b + c.Interval)) := by
        simp only [averageIntervalStep, hq, if_true, wrapInt64_add_left]
      rw [hstep, ih, if_pos hq]
      simp only [List.length_cons, List.map_cons, List.sum_cons, Nat.cast_add, Nat.cast_one]
      rw [add_assoc b, add_assoc a, add_comm (1 : Int)]
    · have hstep : averageIntervalStep (a, wrapInt64 b) c = (a, wrapInt64 b) := by
        simp only [averageIntervalStep, hq, if_false]
        rfl
      rw [hstep, ih, if_neg hq]

theorem scheduled_length_le_sum (cards : List Card) :
    (((cards.filter (fun c => !c.LastReviewed.IsZero && decide (c.Interval > 0))).length : Nat) : Int)
      ≤ ((cards.filter (fun c => !c.LastReviewed.IsZero && decide (c.Interval > 0))).map
          Card.Interval).sum := by
  induction cards with
  | nil => simp
  | cons c cs ih =>
    rw [List.filter_cons]
    by_cases hq : (!c.LastReviewed.IsZero && decide (c.Interval > 0)) = true
    · have hpos : c.Interval > 0 := by
        simp only [Bool.and_eq_true, decide_eq_true_eq] at hq
        exact hq.2
      rw [if_pos hq]
      simp only [List.map_cons, List.sum_cons, List.length_cons, Nat.cast_add, Nat.cast_one]
      omega
    · rw [if_neg hq]
      exact ih

/-- The average interval in terms of the cards that enter it; the sum is the one
the 64-bit accumulator holds. -/
theorem calculateDeckAverageInterval_eq (deck : Deck) :
    calculateDeckAverageInterval deck
      = if (scheduledCards deck).length = 0 then F64.zero
        else F64.div (F64.ofInt (wrapInt64 ((scheduledCards deck).map Card.Interval).sum))
              (F64.ofInt ((scheduledCards deck).length : Nat)) := by
  have hfold := averageInterval_foldl deck.Cards 0 0
  have hw0 : wrapInt64 0 = 0 := by decide
  rw [hw0] at hfold
  unfold calculateDeckAverageInterval scheduledCards
  rw [hfold]
  by_cases h : (List.filter (fun c => !c.LastReviewed.IsZero && decide (c.Interval > 0))
      deck.Cards).length = 0
  · simp [h]
  · have h2 : ¬ (((List.filter (fun c => !c.LastReviewed.IsZero && decide (c.Interval > 0))
        deck.Cards).length : Nat) : Int) = 0 := by
      exact_mod_cast h
    simp [h, h2]

/-! ## Accuracy of the float64 operations -/

theorem log2Aux_bounds (fuel : Nat) :
    ∀ n : Nat, 0 < n → n ≤ fuel →
      2 ^ F64.log2Aux fuel n ≤ n ∧ n < 2 ^ (F64.log2Aux fuel n + 1) := by
  induction fuel with
  | zero => intro n h0 h1; omega
  | succ f ih =>
    intro n h0 h1
    unfold F64.log2Aux
    by_cases h2 : n < 2
    · have : n = 1 := by omega
      subst this
      simp
    · rw [if_neg h2]
      obtain ⟨ha, hb⟩ := ih (n / 2) (by omega) (by omega)
      rw [pow_succ] at hb ⊢
      rw [pow_succ]
      constructor <;> omega

theorem log2_bounds (n : Nat) (h : 0 < n) :
    2 ^ F64.log2 n ≤ n ∧ n < 2 ^ (F64.log2 n + 1) :=
  log2Aux_bounds n n h (le_refl n)

theorem two_pow_toNat_div (s : Int) :
    ((2 : ℚ) ^ s.toNat) / (2 : ℚ) ^ (-s).toNat = (2 : ℚ) ^ s := by
  by_cases hs : 0 ≤ s
  · have h1 : (-s).toNat = 0 := by omega
    rw [h1, pow_zero, div_one]
    conv_rhs => rw [← Int.toNat_of_nonneg hs]
    rw [zpow_natCast]
  · have h1 : s.toNat = 0 := by omega
    have h2 : s = -(((-s).toNat : Nat) : Int) := by omega
    rw [h1, pow_zero]
    conv_rhs => rw [h2]
    rw [zpow_neg, zpow_natCast, one_div]

theorem toRat_eq_zpow (x : F64) : x.toRat = (x.m : ℚ) * (2 : ℚ) ^ x.e := by
  unfold F64.toRat
  by_cases he : 0 ≤ x.e
  · rw [if_pos he]
    conv_rhs => rw [← Int.toNat_of_nonneg he]
    rw [zpow_natCast]
  · rw [if_neg he]
    have h2 : x.e = -(((-x.e).toNat : Nat) : Int) := by omega
    conv_rhs => rw [h2]
    rw [zpow_neg, zpow_natCast, div_eq_mul_inv]

theorem roundNearestEven_error (num den : Nat) (hden : 0 < den) :
    |(F64.roundNearestEven num den : ℚ) - (num : ℚ) / den| ≤ 1 / 2 := by
  have hdiv := Nat.div_add_mod num den
  have hmod := Nat.mod_lt num hden
  have hdenQ : (0 : ℚ) < den := by exact_mod_cast hden
  have hq : (num : ℚ) / den = (num / den : Nat) + ((num % den : Nat) : ℚ) / den := by
    have hc : (num : ℚ) = (den : ℚ) * ((num / den : Nat) : ℚ) + ((num % den : Nat) : ℚ) := by
      exact_mod_cast hdiv.symm
    rw [div_eq_iff (ne_of_gt hdenQ), add_mul, div_mul_cancel₀ _ (ne_of_gt hdenQ)]
    linarith
  have hr0 : (0 : ℚ) ≤ ((num % den : Nat) : ℚ) / den := by positivity
  rw [hq]
  unfold F64.roundNearestEven
  simp only []
  by_cases h1 : 2 * (num % den) < den
  · rw [if_pos h1]
    have h1Q : 2 * ((num % den : Nat) : ℚ) < den := by exact_mod_cast h1
    have : ((num % den : Nat) : ℚ) / den < 1 / 2 := by
      rw [div_lt_iff₀ hdenQ]
      linarith
    rw [abs_le]
    constructor <;> linarith
  · rw [if_neg h1]
    by_cases h2 : den < 2 * (num % den)
    · rw [if_pos h2]
      have hmQ : ((num % den : Nat) : ℚ) < den := by exact_mod_cast hmod
      have h2Q : (den : ℚ) < 2 * ((num % den : Nat) : ℚ) := by exact_mod_cast h2
      have ha : ((num % den : Nat) : ℚ) / den < 1 := by
        rw [div_lt_iff₀ hdenQ]
        linarith
      have hb : 1 / 2 < ((num % den : Nat) : ℚ) / den := by
        rw [lt_div_iff₀ hdenQ]
        linarith
      push_cast
      rw [abs_le]
      constructor <;> linarith
    · rw [if_neg h2]
      have heq : 2 * (num % den) = den := by omega
      have heqQ : 2 * ((num % den : Nat) : ℚ) = den := by exact_mod_cast heq
      have hhalf : ((num % den : Nat) : ℚ) / den = 1 / 2 := by
        rw [div_eq_iff (ne_of_gt hdenQ)]
        linarith
      rw [hhalf]
      split
      · rw [abs_le]
        constructor <;> linarith
      · push_cast
        rw [abs_le]
        constructor <;> linarith

theorem roundShift_lower (n d : Nat) (hn : 0 < n) (hd : 0 < d) :
    (2 : ℚ) ^ 52 ≤ (n : ℚ) / d * (2 : ℚ) ^ F64.roundShift n d := by
  obtain ⟨ha1, _⟩ := log2_bounds n hn
  obtain ⟨_, hb2⟩ := log2_bounds d hd
  have hnQ : (0 : ℚ) < n := by exact_mod_cast hn
  have hdQ : (0 : ℚ) < d := by exact_mod_cast hd
  have hP : (2 : ℚ) ^ F64.log2 n ≤ n := by exact_mod_cast ha1
  have hQ : (d : ℚ) < 2 ^ F64.log2 d * 2 := by
    rw [← pow_succ]
    exact_mod_cast hb2
  have hPpos : (0 : ℚ) < 2 ^ F64.log2 n := by positivity
  have hQpos : (0 : ℚ) < 2 ^ F64.log2 d := by positivity
  have hs0 : (2 : ℚ) ^ (52 - ((F64.log2 n : Int) - (F64.log2 d : Int)))
      = 2 ^ 52 * 2 ^ F64.log2 d / 2 ^ F64.log2 n := by
    have he : (52 - ((F64.log2 n : Int) - (F64.log2 d : Int)))
        = ((52 + F64.log2 d : Nat) : Int) - ((F64.log2 n : Nat) : Int) := by
      push_cast
      ring
    rw [he, zpow_sub₀ (two_ne_zero), zpow_natCast, zpow_natCast, pow_add]
  have hlow : (2 : ℚ) ^ 51 < (n : ℚ) / d * (2 : ℚ) ^ (52 - ((F64.log2 n : Int) - (F64.log2 d : Int))) := by
    rw [hs0, div_mul_div_comm, lt_div_iff₀ (by positivity)]
    have h1 : (2 : ℚ) ^ 51 * (d * 2 ^ F64.log2 n) < 2 ^ 51 * ((2 ^ F64.log2 d * 2) * 2 ^ F64.log2 n) := by
      apply mul_lt_mul_of_pos_left _ (by positivity)
      exact mul_lt_mul_of_pos_right hQ hPpos
    have h2 : (2 : ℚ) ^ 51 * ((2 ^ F64.log2 d * 2) * 2 ^ F64.log2 n)
        ≤ 2 ^ 51 * ((2 ^ F64.log2 d * 2) * n) := by
      apply mul_le_mul_of_nonneg_left _ (by positivity)
      exact mul_le_mul_of_nonneg_left hP (by positivity)
    calc (2 : ℚ) ^ 51 * (d * 2 ^ F64.log2 n)
        < 2 ^ 51 * ((2 ^ F64.log2 d * 2) * 2 ^ F64.log2 n) := h1
      _ ≤ 2 ^ 51 * ((2 ^ F64.log2 d * 2) * n) := h2
      _ = n * (2 ^ 52 * 2 ^ F64.log2 d) := by ring
  unfold F64.roundShift
  simp only []
  split
  · rw [zpow_add_one₀ (two_ne_zero)]
    have : (2 : ℚ) ^ 52 = 2 ^ 51 * 2 := by norm_num
    rw [this, ← mul_assoc]
    exact le_of_lt (mul_lt_mul_of_pos_right hlow (by norm_num))
  · rename_i htest
    have hge : d * 2 ^ (-(52 - ((F64.log2 n : Int) - (F64.log2 d : Int)))).toNat * 2 ^ 52
        ≤ n * 2 ^ (52 - ((F64.log2 n : Int) - (F64.log2 d : Int))).toNat := by
      omega
    have hgeQ : (d : ℚ) * 2 ^ (-(52 - ((F64.log2 n : Int) - (F64.log2 d : Int)))).toNat * 2 ^ 52
        ≤ (n : ℚ) * 2 ^ (52 - ((F64.log2 n : Int) - (F64.log2 d : Int))).toNat := by
      exact_mod_cast hge
    rw [← two_pow_toNat_div, div_mul_div_comm, le_div_iff₀ (by positivity)]
    linarith

theorem scaled_ratio_cast (n d : Nat) (s : Int) :
    ((n * 2 ^ s.toNat : Nat) : ℚ) / ((d * 2 ^ (-s).toNat : Nat) : ℚ)
      = (n : ℚ) / d * (2 : ℚ) ^ s := by
  push_cast
  rw [← two_pow_toNat_div, div_mul_div_comm]

/-- Rounding a positive ratio to 53 bits moves it by at most the fraction
`2 ^ -53` of its value. -/
theorem roundRatio_error (n d : Nat) (k : Int) (hn : 0 < n) (hd : 0 < d) :
    |(F64.roundRatio false n d k).toRat - (n : ℚ) / d * (2 : ℚ) ^ k|
        ≤ (n : ℚ) / d * (2 : ℚ) ^ k / 2 ^ 53
    ∧ 0 < (F64.roundRatio false n d k).m := by
  have hD : 0 < d * 2 ^ (-(F64.roundShift n d)).toNat := by positivity
  have herr := roundNearestEven_error (n * 2 ^ (F64.roundShift n d).toNat)
    (d * 2 ^ (-(F64.roundShift n d)).toNat) hD
  have hlow := roundShift_lower n d hn hd
  rw [scaled_ratio_cast] at herr
  have hk : (2 : ℚ) ^ k = (2 : ℚ) ^ F64.roundShift n d * (2 : ℚ) ^ (k - F64.roundShift n d) := by
    rw [← zpow_add₀ (two_ne_zero)]
    congr 1
    ring
  have hpos : (0 : ℚ) < (2 : ℚ) ^ (k - F64.roundShift n d) := by positivity
  have hm : (F64.roundRatio false n d k).m
      = (F64.roundNearestEven (n * 2 ^ (F64.roundShift n d).toNat)
          (d * 2 ^ (-(F64.roundShift n d)).toNat) : Nat) := by
    simp [F64.roundRatio]
  have he : (F64.roundRatio false n d k).e = k - F64.roundShift n d := by
    simp [F64.roundRatio]
  generalize F64.roundNearestEven (n * 2 ^ (F64.roundShift n d).toNat)
    (d * 2 ^ (-(F64.roundShift n d)).toNat) = mant at herr hm
  constructor
  · rw [toRat_eq_zpow, hm, he, hk, ← mul_assoc]
    generalize (n : ℚ) / d * (2 : ℚ) ^ F64.roundShift n d = v at herr hlow
    generalize (2 : ℚ) ^ (k - F64.roundShift n d) = u at hpos
    rw [Int.cast_natCast, ← sub_mul, abs_mul, abs_of_pos hpos, mul_div_right_comm]
    apply mul_le_mul_of_nonneg_right _ (le_of_lt hpos)
    have hv : (1 : ℚ) / 2 ≤ v / 2 ^ 53 := by
      rw [le_div_iff₀ (by positivity)]
      have : (1 : ℚ) / 2 * 2 ^ 53 = 2 ^ 52 := by norm_num
      rw [this]
      exact hlow
    exact le_trans herr hv
  · rw [hm]
    have h1 := (abs_le.mp herr).1
    have h2 : (0 : ℚ) < (mant : ℚ) := by
      have : (2 : ℚ) ^ 52 > 1 := by norm_num
      linarith
    exact_mod_cast h2

theorem roundShift_one_nonneg (n : Nat) (hn : 0 < n) (h : n < 2 ^ 53) :
    0 ≤ F64.roundShift n 1 := by
  obtain ⟨ha1, _⟩ := log2_bounds n hn
  have hlog : F64.log2 n < 53 := by
    by_contra hc
    have : 2 ^ 53 ≤ 2 ^ F64.log2 n := Nat.pow_le_pow_right (by decide) (by omega)
    omega
  have h1 : F64.log2 1 = 0 := by decide
  unfold F64.roundShift
  simp only [h1]
  split <;> omega

/-- Integers below `2 ^ 53` convert to `float64` without rounding. -/
theorem ofInt_exact (i : Int) (h0 : 0 < i) (h : i < 2 ^ 53) :
    (F64.ofInt i).toRat = i ∧ 0 < (F64.ofInt i).m := by
  have hn : 0 < i.natAbs := by omega
  have hlt : i.natAbs < 2 ^ 53 := by omega
  have hs := roundShift_one_nonneg i.natAbs hn hlt
  have hne : i ≠ 0 := by omega
  have hneg : ¬ i < 0 := by omega
  have hden : 1 * 2 ^ (-(F64.roundShift i.natAbs 1)).toNat = 1 := by
    have : (-(F64.roundShift i.natAbs 1)).toNat = 0 := by omega
    rw [this]
    rfl
  have hround : ∀ N : Nat, F64.roundNearestEven N 1 = N := by
    intro N
    simp [F64.roundNearestEven, Nat.mod_one]
  have hm : (F64.ofInt i).m = ((i.natAbs * 2 ^ (F64.roundShift i.natAbs 1).toNat : Nat) : Int) := by
    simp only [F64.ofInt, hne, if_false, F64.roundRatio, hneg, decide_False, hden, hround]
    rfl
  have he : (F64.ofInt i).e = 0 - F64.roundShift i.natAbs 1 := by
    simp only [F64.ofInt, hne, if_false, F64.roundRatio]
  constructor
  · rw [toRat_eq_zpow, hm, he, zero_sub, zpow_neg]
    have hpow : (2 : ℚ) ^ F64.roundShift i.natAbs 1
        = (2 : ℚ) ^ (F64.roundShift i.natAbs 1).toNat := by
      conv_lhs => rw [← Int.toNat_of_nonneg hs]
      rw [zpow_natCast]
    have habs : ((i.natAbs : Nat) : ℚ) = (i : ℚ) := by
      rw [Nat.cast_natAbs, abs_of_pos h0]
    rw [hpow, Int.cast_natCast, Nat.cast_mul, habs, Nat.cast_pow, Nat.cast_ofNat, mul_assoc,
      mul_inv_cancel₀ (by positivity), mul_one]
  · rw [hm]
    have : 0 < i.natAbs * 2 ^ (F64.roundShift i.natAbs 1).toNat := by positivity
    exact_mod_cast this

/-- Division of two positive floats moves the exact quotient by at most the
fraction `2 ^ -53` of its value. -/
theorem div_error (x y : F64) (hx : 0 < x.m) (hy : 0 < y.m) :
    |(F64.div x y).toRat - x.toRat / y.toRat| ≤ x.toRat / y.toRat / 2 ^ 53 := by
  have hx0 : ¬ x.m = 0 := by omega
  have hy0 : ¬ y.m = 0 := by omega
  have hxn : ¬ x.m < 0 := by omega
  have hyn : ¬ y.m < 0 := by omega
  have hdiv : F64.div x y = F64.roundRatio false x.m.natAbs y.m.natAbs (x.e - y.e) := by
    simp [F64.div, hx0, hy0, hxn, hyn]
  have hq : x.toRat / y.toRat
      = ((x.m.natAbs : Nat) : ℚ) / ((y.m.natAbs : Nat) : ℚ) * (2 : ℚ) ^ (x.e - y.e) := by
    have hxa : ((x.m.natAbs : Nat) : ℚ) = (x.m : ℚ) := by
      rw [Nat.cast_natAbs, abs_of_pos hx]
    have hya : ((y.m.natAbs : Nat) : ℚ) = (y.m : ℚ) := by
      rw [Nat.cast_natAbs, abs_of_pos hy]
    rw [toRat_eq_zpow, toRat_eq_zpow, hxa, hya, zpow_sub₀ (two_ne_zero), mul_div_mul_comm]
  rw [hdiv, hq]
  exact (roundRatio_error x.m.natAbs y.m.natAbs (x.e - y.e) (by omega) (by omega)).1

set_option maxRecDepth 8000 in
/-- C3, as stated, fails. Two reviewed cards of interval `2 ^ 62` have the mean
`2 ^ 62`, but their sum leaves the range of a 64-bit `int` and
`calculateDeckAverageInterval` returns the negative `float64` `-(2 ^ 62)`; and
for three reviewed cards of intervals 1, 1 and 2 the value returned is a
`float64` next to the mean 4/3, not 4/3 itself. -/
theorem calculateDeckAverageInterval_not_mean :
    (scheduledCards overflowDeck).map Card.Interval = [2 ^ 62, 2 ^ 62]
    ∧ calculateDeckAverageInterval overflowDeck = ⟨-(2 ^ 52), 10⟩
    ∧ (scheduledCards meanDeck).map Card.Interval = [1, 1, 2]
    ∧ calculateDeckAverageInterval meanDeck = ⟨6004799503160661, -52⟩
    ∧ (6004799503160661 : Int) * 3 ≠ 4 * 2 ^ 52 := by
  decide

/-- C3, amended. For every deck, with the sum and the count taken over exactly
the cards with a non-zero `LastReviewed` and `Interval > 0`:
`calculateDeckAverageInterval` returns 0.0 if there is no such card; if there is
one and the sum is below `2 ^ 63`, it returns the `float64` quotient of the sum
by the count; if moreover the sum is below `2 ^ 53`, that value differs from the
arithmetic mean by at most the fraction `2 ^ -53` of the mean. The function
does not read the clock, and replacing the review instants by any other
non-zero instants leaves the result unchanged. -/
theorem calculateDeckAverageInterval_mean (deck : Deck) :
    (scheduledCards deck = [] →
      calculateDeckAverageInterval deck = F64.zero
      ∧ (calculateDeckAverageInterval deck).toRat = 0)
    ∧ (scheduledCards deck ≠ [] → ((scheduledCards deck).map Card.Interval).sum < 2 ^ 63 →
      calculateDeckAverageInterval deck
        = F64.div (F64.ofInt ((scheduledCards deck).map Card.Interval).sum)
            (F64.ofInt ((scheduledCards deck).length : Nat)))
    ∧ (scheduledCards deck ≠ [] → ((scheduledCards deck).map Card.Interval).sum < 2 ^ 53 →
      |(calculateDeckAverageInterval deck).toRat
          - ((((scheduledCards deck).map Card.Interval).sum : Int) : ℚ)
              / ((scheduledCards deck).length : Nat)|
        ≤ ((((scheduledCards deck).map Card.Interval).sum : Int) : ℚ)
              / ((scheduledCards deck).length : Nat) / 2 ^ 53)
    ∧ (∀ f : Time → Time, (∀ t, (f t).IsZero = t.IsZero) →
      calculateDeckAverageInterval
          { deck with Cards := deck.Cards.map (fun c => { c with LastReviewed := f c.LastReviewed }) }
        = calculateDeckAverageInterval deck) := by
  have hle := scheduled_length_le_sum deck.Cards
  have hval : scheduledCards deck ≠ [] → ((scheduledCards deck).map Card.Interval).sum < 2 ^ 63 →
      calculateDeckAverageInterval deck
        = F64.div (F64.ofInt ((scheduledCards deck).map Card.Interval).sum)
            (F64.ofInt ((scheduledCards deck).length : Nat)) := by
    intro hne hsum
    have hlen : (scheduledCards deck).length ≠ 0 := by
      intro h0
      exact hne (List.length_eq_zero.mp h0)
    have hpos : (0 : Int) ≤ ((scheduledCards deck).map Card.Interval).sum := by
      unfold scheduledCards
      omega
    rw [calculateDeckAverageInterval_eq, if_neg hlen, wrapInt64_of_range _ hpos hsum]
  refine ⟨?_, hval, ?_, ?_⟩
  · intro hnil
    have h0 : calculateDeckAverageInterval deck = F64.zero := by
      rw [calculateDeckAverageInterval_eq, hnil]
      simp
    refine ⟨h0, ?_⟩
    rw [h0]
    simp [F64.toRat, F64.zero]
  · intro hne hsum
    have hlen : 0 < (scheduledCards deck).length := List.length_pos.mpr hne
    have hlenZ : (0 : Int) < ((scheduledCards deck).length : Nat) := by exact_mod_cast hlen
    have hle2 : (((scheduledCards deck).length : Nat) : Int)
        ≤ ((scheduledCards deck).map Card.Interval).sum := hle
    have hS := ofInt_exact ((scheduledCards deck).map Card.Interval).sum (by omega) hsum
    have hN := ofInt_exact (((scheduledCards deck).length : Nat) : Int) hlenZ (by omega)
    rw [hval hne (by omega)]
    have hdiv := div_error _ _ hS.2 hN.2
    rw [hS.1, hN.1, Int.cast_natCast] at hdiv
    exact hdiv
  · intro f hf
    have hfilter : scheduledCards
        { deck with Cards := deck.Cards.map (fun c => { c with LastReviewed := f c.LastReviewed }) }
        = (scheduledCards deck).map (fun c => { c with LastReviewed := f c.LastReviewed }) := by
      unfold scheduledCards
      simp only [List.filter_map]
      congr 2
      funext c
      simp [hf]
    rw [calculateDeckAverageInterval_eq, calculateDeckAverageInterval_eq, hfilter]
    simp only [List.length_map, List.map_map]
    rfl

theorem calculateDeckAverageInterval_mean_witness :
    calculateDeckAverageInterval ⟨"deck-0", "Empty", [freshCard], Time.zero⟩ = F64.zero
    ∧ calculateDeckAverageInterval meanDeck = F64.div (F64.ofInt 4) (F64.ofInt 3)
    ∧ |(calculateDeckAverageInterval meanDeck).toRat - ((4 : Int) : ℚ) / (3 : Nat)|
        ≤ ((4 : Int) : ℚ) / (3 : Nat) / 2 ^ 53 :=
  ⟨((calculateDeckAverageInterval_mean ⟨"deck-0", "Empty", [freshCard], Time.zero⟩).1
      (by decide)).1,
    (calculateDeckAverageInterval_mean meanDeck).2.1 (by decide) (by decide),
    (calculateDeckAverageInterval_mean meanDeck).2.2.1 (by decide) (by decide)⟩

/-! ## The main menu -/

theorem matches_quit_iff (pressed : String) :
    Binding.Matches pressed keys.Quit = true ↔ pressed = "q" ∨ pressed = "ctrl+c" := by
  simp [Binding.Matches, keys]

theorem matches_up_iff (pressed : String) :
    Binding.Matches pressed keys.Up = true ↔ pressed = "up" ∨ pressed = "k" := by
  simp [Binding.Matches, keys]

theorem matches_down_iff (pressed : String) :
    Binding.Matches pressed keys.Down = true ↔ pressed = "down" ∨ pressed = "j" := by
  simp [Binding.Matches, keys]

theorem matches_enter_iff (pressed : String) :
    Binding.Matches pressed keys.Enter = true ↔ pressed = "enter" := by
  simp [Binding.Matches, keys]

/-- An activation with the key map `keys` reaches the selection switch. -/
theorem update_enter_eq (m : MainMenu) (pressed : String)
    (h : Binding.Matches pressed keys.Enter = true) :
    m.Update keys (Msg.KeyMsg pressed)
      = if m.cursor = 0 then (NewBrowseScreen m.store, none)
        else if m.cursor = 1 then (NewBrowseScreen m.store, none)
        else if m.cursor = 2 then (NewStatisticsScreen m.store, none)
        else if m.cursor = 3 then (Model.mainMenu { m with selected := m.cursor }, some Cmd.Quit)
        else (Model.mainMenu { m with selected := m.cursor }, none) := by
  have hp : pressed = "enter" := (matches_enter_iff pressed).mp h
  subst hp
  have hq : Binding.Matches "enter" keys.Quit = false := by decide
  have hu : Binding.Matches "enter" keys.Up = false := by decide
  have hd : Binding.Matches "enter" keys.Down = false := by decide
  simp only [MainMenu.Update, hq, hu, hd, h, Bool.false_eq_true, if_false, if_true]

/-- C11. For every menu state and every activation (enter) event: with the
cursor on index 0 or 1, `Update` returns a new browse screen built from the
store of the menu and no command; on index 2, a new statistics screen built
from the store of the menu and no command; on index 3, the quit command together
with the menu whose `selected` field equals the cursor, 3. -/
theorem update_enter_transitions (m : MainMenu) (pressed : String)
    (h : Binding.Matches pressed keys.Enter = true) :
    (m.cursor = 0 ∨ m.cursor = 1 →
      m.Update keys (Msg.KeyMsg pressed) = (Model.browseScreen m.store, none))
    ∧ (m.cursor = 2 →
      m.Update keys (Msg.KeyMsg pressed) = (Model.statisticsScreen m.store, none))
    ∧ (m.cursor = 3 →
      m.Update keys (Msg.KeyMsg pressed)
        = (Model.mainMenu { m with selected := 3 }, some Cmd.Quit)) := by
  rw [update_enter_eq m pressed h]
  refine ⟨?_, ?_, ?_⟩
  · rintro (h0 | h1)
    · simp [h0, NewBrowseScreen]
    · simp [h1, NewBrowseScreen]
  · intro h2
    simp [h2, NewStatisticsScreen]
  · intro h3
    simp [h3]

theorem update_enter_transitions_witness :
    ((NewMainMenu unstudiedStore none).Update keys (Msg.KeyMsg "enter")
        = (Model.browseScreen (some unstudiedStore), none))
    ∧ (({ NewMainMenu unstudiedStore none with cursor := 2 } : MainMenu).Update keys
          (Msg.KeyMsg "enter") = (Model.statisticsScreen (some unstudiedStore), none))
    ∧ (({ NewMainMenu unstudiedStore none with cursor := 3 } : MainMenu).Update keys
          (Msg.KeyMsg "enter")
        = (Model.mainMenu { NewMainMenu unstudiedStore none with cursor := 3, selected := 3 },
            some Cmd.Quit)) :=
  ⟨(update_enter_transitions (NewMainMenu unstudiedStore none) "enter" (by decide)).1
      (Or.inl rfl),
    (update_enter_transitions { NewMainMenu unstudiedStore none with cursor := 2 } "enter"
      (by decide)).2.1 rfl,
    (update_enter_transitions { NewMainMenu unstudiedStore none with cursor := 3 } "enter"
      (by decide)).2.2 rfl⟩

/-- C12. For every menu state with `0 <= cursor <= len(items) - 1`: an up event
yields `cursor - 1` when `cursor > 0` and leaves the cursor at 0 when it is 0; a
down event yields `cursor + 1` when `cursor < len(items) - 1` and leaves it
unchanged at the last index; the new cursor stays between 0 and
`len(items) - 1`, the result is still the menu, no command is issued, and
`items`, `selected`, `width`, `height` and `store` are unchanged. -/
theorem update_cursor_navigation (m : MainMenu) (h0 : 0 ≤ m.cursor)
    (h1 : m.cursor ≤ (m.items.length : Int) - 1) :
    (∀ pressed, Binding.Matches pressed keys.Up = true →
      m.Update keys (Msg.KeyMsg pressed)
          = (Model.mainMenu { m with cursor := if m.cursor > 0 then m.cursor - 1 else 0 }, none)
        ∧ 0 ≤ (if m.cursor > 0 then m.cursor - 1 else 0)
        ∧ (if m.cursor > 0 then m.cursor - 1 else 0) ≤ (m.items.length : Int) - 1)
    ∧ (∀ pressed, Binding.Matches pressed keys.Down = true →
      m.Update keys (Msg.KeyMsg pressed)
          = (Model.mainMenu
              { m with cursor := if m.cursor < (m.items.length : Int) - 1 then m.cursor + 1
                                 else (m.items.length : Int) - 1 }, none)
        ∧ 0 ≤ (if m.cursor < (m.items.length : Int) - 1 then m.cursor + 1
               else (m.items.length : Int) - 1)
        ∧ (if m.cursor < (m.items.length : Int) - 1 then m.cursor + 1
           else (m.items.length : Int) - 1) ≤ (m.items.length : Int) - 1) := by
  constructor
  · intro pressed hp
    have hq : Binding.Matches pressed keys.Quit = false := by
      rcases (matches_up_iff pressed).mp hp with rfl | rfl <;> decide
    refine ⟨?_, ?_, ?_⟩
    · simp only [MainMenu.Update, hq, hp, Bool.false_eq_true, if_false, if_true]
      by_cases hc : m.cursor > 0
      · simp only [hc, if_true]
      · have hz : m.cursor = 0 := by omega
        simp only [hc, if_false]
        rw [← hz]
    · split <;> omega
    · split <;> omega
  · intro pressed hp
    have hq : Binding.Matches pressed keys.Quit = false := by
      rcases (matches_down_iff pressed).mp hp with rfl | rfl <;> decide
    have hu : Binding.Matches pressed keys.Up = false := by
      rcases (matches_down_iff pressed).mp hp with rfl | rfl <;> decide
    refine ⟨?_, ?_, ?_⟩
    · simp only [MainMenu.Update, hq, hu, hp, Bool.false_eq_true, if_false, if_true]
      by_cases hc : m.cursor < (m.items.length : Int) - 1
      · simp only [hc, if_true]
      · have hz : m.cursor = (m.items.length : Int) - 1 := by omega
        simp only [hc, if_false]
        rw [← hz]
    · split <;> omega
    · split <;> omega

theorem update_cursor_navigation_witness :
    (({ NewMainMenu unstudiedStore none with cursor := 2 } : MainMenu).Update keys (Msg.KeyMsg "k")
        = (Model.mainMenu { NewMainMenu unstudiedStore none with cursor := 1 }, none))
    ∧ ((NewMainMenu unstudiedStore none).Update keys (Msg.KeyMsg "up")
        = (Model.mainMenu (NewMainMenu unstudiedStore none), none))
    ∧ (({ NewMainMenu unstudiedStore none with cursor := 2 } : MainMenu).Update keys
          (Msg.KeyMsg "down")
        = (Model.mainMenu { NewMainMenu unstudiedStore none with cursor := 3 }, none))
    ∧ (({ NewMainMenu unstudiedStore none with cursor := 3 } : MainMenu).Update keys (Msg.KeyMsg "j")
        = (Model.mainMenu { NewMainMenu unstudiedStore none with cursor := 3 }, none)) :=
  ⟨((update_cursor_navigation { NewMainMenu unstudiedStore none with cursor := 2 } (by decide)
      (by decide)).1 "k" (by decide)).1,
    ((update_cursor_navigation (NewMainMenu unstudiedStore none) (by decide) (by decide)).1 "up"
      (by decide)).1,
    ((update_cursor_navigation { NewMainMenu unstudiedStore none with cursor := 2 } (by decide)
      (by decide)).2 "down" (by decide)).1,
    ((update_cursor_navigation { NewMainMenu unstudiedStore none with cursor := 3 } (by decide)
      (by decide)).2 "j" (by decide)).1⟩

/-- C13. For every menu state, a quit key event ("q" or "ctrl+c") makes
`Update` return the quit command together with the menu unchanged; and the quit
binding is tested first: whatever the key map, a key that matches its quit
binding gives this result, whether or not it also matches the up, down or enter
binding. -/
theorem update_quit (m : MainMenu) :
    (∀ pressed, pressed = "q" ∨ pressed = "ctrl+c" →
      m.Update keys (Msg.KeyMsg pressed) = (Model.mainMenu m, some Cmd.Quit))
    ∧ (∀ (km : keyMap) (pressed : String), Binding.Matches pressed km.Quit = true →
      m.Update km (Msg.KeyMsg pressed) = (Model.mainMenu m, some Cmd.Quit)) := by
  have hgen : ∀ (km : keyMap) (pressed : String), Binding.Matches pressed km.Quit = true →
      m.Update km (Msg.KeyMsg pressed) = (Model.mainMenu m, some Cmd.Quit) := by
    intro km pressed h
    simp only [MainMenu.Update, h, if_true]
  exact ⟨fun pressed hp => hgen keys pressed ((matches_quit_iff pressed).mpr hp), hgen⟩

theorem update_quit_witness :
    usedMenu.Update keys (Msg.KeyMsg "ctrl+c") = (Model.mainMenu usedMenu, some Cmd.Quit)
    ∧ freshMenu.Update { keys with Quit := ⟨["q", "enter"], false⟩ } (Msg.KeyMsg "enter")
      = (Model.mainMenu freshMenu, some Cmd.Quit) :=
  ⟨(update_quit usedMenu).1 "ctrl+c" (Or.inr rfl),
    (update_quit freshMenu).2 { keys with Quit := ⟨["q", "enter"], false⟩ } "enter" (by decide)⟩

/-- C14. For every menu state and every resize event, `Update` returns the menu
with no command, and `cursor`, `selected`, `items` and `store` are exactly as
before; only `width` and `height` may differ. -/
theorem update_resize_frame (m : MainMenu) (km : keyMap) (W H : Int) :
    ∃ m1 : MainMenu, m.Update km (Msg.WindowSizeMsg W H) = (Model.mainMenu m1, none)
      ∧ m1.cursor = m.cursor ∧ m1.selected = m.selected ∧ m1.items = m.items
      ∧ m1.store = m.store :=
  ⟨{ m with width := 120, height := H }, rfl, rfl, rfl, rfl, rfl⟩

/-- C15, as stated, fails: after a resize event of width 80 and height 24 the
menu returned by `Update` has width 120, not 80. -/
theorem update_resize_width_not_event :
    freshMenu.Update keys (Msg.WindowSizeMsg 80 24)
      = (Model.mainMenu { freshMenu with width := 120, height := 24 }, none)
    ∧ ({ freshMenu with width := 120, height := 24 } : MainMenu).width ≠ 80 :=
  ⟨rfl, by decide⟩

/-- C15, amended. For every menu state and every resize event carrying width
`W` and height `H`, the menu returned by `Update` has `height == H` and
`width == 120`, the default width, whatever `W` is. -/
theorem update_resize_dimensions (m : MainMenu) (km : keyMap) (W H : Int) :
    ∃ m1 : MainMenu, m.Update km (Msg.WindowSizeMsg W H) = (Model.mainMenu m1, none)
      ∧ m1.width = 120 ∧ m1.height = H :=
  ⟨{ m with width := 120, height := H }, rfl, rfl, rfl⟩

/-- C16. For every menu state and every event that is neither a resize event
nor a key event matching the quit, up, down or enter binding, `Update` returns
the menu with every field unchanged and no command. -/
theorem update_ignores_other (m : MainMenu) (km : keyMap) (msg : Msg)
    (hresize : ∀ W H, msg ≠ Msg.WindowSizeMsg W H)
    (hkey : ∀ pressed, msg = Msg.KeyMsg pressed →
      Binding.Matches pressed km.Quit = false ∧ Binding.Matches pressed km.Up = false
      ∧ Binding.Matches pressed km.Down = false ∧ Binding.Matches pressed km.Enter = false) :
    m.Update km msg = (Model.mainMenu m, none) := by
  cases msg with
  | KeyMsg pressed =>
    obtain ⟨hq, hu, hd, he⟩ := hkey pressed rfl
    simp only [MainMenu.Update, hq, hu, hd, he, Bool.false_eq_true, if_false]
  | WindowSizeMsg W H => exact absurd rfl (hresize W H)
  | other => rfl

theorem update_ignores_other_witness :
    freshMenu.Update keys (Msg.KeyMsg "x") = (Model.mainMenu freshMenu, none) :=
  update_ignores_other freshMenu keys (Msg.KeyMsg "x") (by intro W H h; cases h)
    (by intro pressed h; cases h; decide)

/-- One step of `Update` that returns the menu keeps the four items, a cursor
between 0 and 3 and the store. -/
theorem update_preserves_invariant (km : keyMap) (m m1 : MainMenu) (msg : Msg)
    (hitems : m.items = ["Study", "Browse Decks", "Statistics", "Quit"])
    (h0 : 0 ≤ m.cursor) (h3 : m.cursor ≤ 3)
    (hstep : (m.Update km msg).1 = Model.mainMenu m1) :
    m1.items = ["Study", "Browse Decks", "Statistics", "Quit"]
    ∧ 0 ≤ m1.cursor ∧ m1.cursor ≤ 3 ∧ m1.store = m.store := by
  have hlen : (m.items.length : Int) - 1 = 3 := by rw [hitems]; rfl
  cases msg with
  | KeyMsg pressed =>
    simp only [MainMenu.Update, hlen] at hstep
    split at hstep
    · cases hstep
      exact ⟨hitems, h0, h3, rfl⟩
    · split at hstep
      · cases hstep
        split
        · exact ⟨hitems, by simp only; omega, by simp only; omega, rfl⟩
        · exact ⟨hitems, h0, h3, rfl⟩
      · split at hstep
        · cases hstep
          split
          · exact ⟨hitems, by simp only; omega, by simp only; omega, rfl⟩
          · exact ⟨hitems, h0, h3, rfl⟩
        · split at hstep
          · simp only [NewBrowseScreen, NewStatisticsScreen] at hstep
            split at hstep
            · cases hstep
            · split at hstep
              · cases hstep
              · split at hstep
                · cases hstep
                · split at hstep
                  · cases hstep
                    exact ⟨hitems, h0, h3, rfl⟩
                  · cases hstep
                    exact ⟨hitems, h0, h3, rfl⟩
          · cases hstep
            exact ⟨hitems, h0, h3, rfl⟩
  | WindowSizeMsg W H =>
    cases hstep
    exact ⟨hitems, h0, h3, rfl⟩
  | other =>
    cases hstep
    exact ⟨hitems, h0, h3, rfl⟩

theorem run_preserves_invariant (km : keyMap) (events : List Msg) :
    ∀ m m1 : MainMenu, m.items = ["Study", "Browse Decks", "Statistics", "Quit"] →
      0 ≤ m.cursor → m.cursor ≤ 3 → MainMenu.run km m events = some m1 →
      m1.items = ["Study", "Browse Decks", "Statistics", "Quit"]
      ∧ 0 ≤ m1.cursor ∧ m1.cursor ≤ 3 ∧ m1.store = m.store := by
  induction events with
  | nil =>
    intro m m1 hitems h0 h3 hrun
    simp only [MainMenu.run, Option.some.injEq] at hrun
    subst hrun
    exact ⟨hitems, h0, h3, rfl⟩
  | cons msg rest ih =>
    intro m m1 hitems h0 h3 hrun
    unfold MainMenu.run at hrun
    split at hrun
    · rename_i m2 hstep
      obtain ⟨a, b, c, d⟩ := update_preserves_invariant km m m2 msg hitems h0 h3 hstep
      obtain ⟨a1, b1, c1, d1⟩ := ih m2 m1 a b c hrun
      exact ⟨a1, b1, c1, d1.trans d⟩
    · cases hrun

/-- C20. Every menu state reached from `NewMainMenu(store)` by a finite sequence
of events for which `Update` keeps returning the menu has the items "Study",
"Browse Decks", "Statistics", "Quit", a cursor between 0 and 3 and the store the
menu was created with; therefore an activation event in such a state produces a
new browse screen, a new statistics screen or the quit command, and never
returns the menu with no command. -/
theorem reachable_menu_invariant (newStore : Store) (store : Option Store) (events : List Msg)
    (m : MainMenu) (hrun : MainMenu.run keys (NewMainMenu newStore store) events = some m) :
    m.items = ["Study", "Browse Decks", "Statistics", "Quit"]
    ∧ 0 ≤ m.cursor ∧ m.cursor ≤ 3
    ∧ m.store = (NewMainMenu newStore store).store
    ∧ m.store = some (store.getD newStore)
    ∧ ∀ pressed, Binding.Matches pressed keys.Enter = true →
        (m.Update keys (Msg.KeyMsg pressed) = (Model.browseScreen m.store, none)
          ∨ m.Update keys (Msg.KeyMsg pressed) = (Model.statisticsScreen m.store, none)
          ∨ m.Update keys (Msg.KeyMsg pressed)
              = (Model.mainMenu { m with selected := 3 }, some Cmd.Quit))
        ∧ ∀ m1, m.Update keys (Msg.KeyMsg pressed) ≠ (Model.mainMenu m1, none) := by
  obtain ⟨hitems, h0, h3, hstore⟩ := run_preserves_invariant keys events
    (NewMainMenu newStore store) m rfl (le_refl (0 : Int)) (by show (0 : Int) ≤ 3; decide) hrun
  have hnew : (NewMainMenu newStore store).store = some (store.getD newStore) := by
    cases store <;> rfl
  refine ⟨hitems, h0, h3, hstore, hstore.trans hnew, ?_⟩
  intro pressed hp
  rw [update_enter_eq m pressed hp]
  have hc : m.cursor = 0 ∨ m.cursor = 1 ∨ m.cursor = 2 ∨ m.cursor = 3 := by omega
  rcases hc with hc | hc | hc | hc <;>
    simp [hc, NewBrowseScreen, NewStatisticsScreen]

theorem reachable_menu_invariant_witness :
    MainMenu.run keys (NewMainMenu unstudiedStore none) sampleEvents = some lastItemMenu
    ∧ ∀ m1, lastItemMenu.Update keys (Msg.KeyMsg "enter") ≠ (Model.mainMenu m1, none) :=
  ⟨rfl,
    ((reachable_menu_invariant unstudiedStore none sampleEvents lastItemMenu rfl).2.2.2.2.2
      "enter" (by decide)).2⟩

/-! ## The 30-day window -/

theorem fiveBuckets_get (a1 a2 a3 a4 a5 r : Int) (h1 : 1 ≤ r) (h5 : r ≤ 5) :
    (fiveBuckets a1 a2 a3 a4 a5).get r
      = if r = 1 then a1 else if r = 2 then a2 else if r = 3 then a3 else if r = 4 then a4
        else a5 := by
  have hr : r = 1 ∨ r = 2 ∨ r = 3 ∨ r = 4 ∨ r = 5 := by omega
  rcases hr with h | h | h | h | h <;> subst h <;> simp [fiveBuckets, IntMap.get]

theorem windowCards_insert (now : Time) (c : Card) (id name : String) (pre post : List Card)
    (ls : Time) :
    windowCards ⟨id, name, pre ++ c :: post, ls⟩ now
      = windowCards ⟨id, name, pre, ls⟩ now
        ++ (if reviewedInWindow now c = true then [c] else [])
        ++ windowCards ⟨id, name, post, ls⟩ now := by
  unfold windowCards
  simp only [List.filter_append, List.filter_cons]
  split <;> simp

theorem windowCards_append (now : Time) (id name : String) (pre post : List Card) (ls : Time) :
    windowCards ⟨id, name, pre ++ post, ls⟩ now
      = windowCards ⟨id, name, pre, ls⟩ now ++ windowCards ⟨id, name, post, ls⟩ now := by
  unfold windowCards
  simp only [List.filter_append]

/-- The counter `totalReviewed` grows by one exactly for a card inside the
window. -/
theorem totalReviewed_insert (now : Time) (c : Card) (pre post : List Card) :
    ((pre ++ c :: post).foldl (successRateStep now) (0, 0)).1
      = ((pre ++ post).foldl (successRateStep now) (0, 0)).1
        + (if reviewedInWindow now c = true then 1 else 0) := by
  rw [successRate_foldl, successRate_foldl]
  simp only [List.filter_append, List.filter_cons, List.length_append]
  by_cases hw : reviewedInWindow now c = true
  · simp only [hw, if_true, List.length_cons]
    push_cast
    omega
  · simp only [hw, if_false, Bool.false_eq_true]
    push_cast
    omega

/-- The bucket of an in-range rating grows by one exactly for a card of that
rating inside the window. -/
theorem bucket_insert (now : Time) (c : Card) (id name : String) (pre post : List Card)
    (ls : Time) (r : Int) (h1 : 1 ≤ r) (h5 : r ≤ 5) :
    (calculateDeckRatingDistribution ⟨id, name, pre ++ c :: post, ls⟩ now).get r
      = (calculateDeckRatingDistribution ⟨id, name, pre ++ post, ls⟩ now).get r
        + bucketHit now c r := by
  rw [calculateDeckRatingDistribution_eq, calculateDeckRatingDistribution_eq,
    fiveBuckets_get _ _ _ _ _ r h1 h5, fiveBuckets_get _ _ _ _ _ r h1 h5,
    windowCards_insert, windowCards_append]
  have hcount : ∀ q : Int,
      ratingCount (windowCards ⟨id, name, pre, ls⟩ now
          ++ (if reviewedInWindow now c = true then [c] else [])
          ++ windowCards ⟨id, name, post, ls⟩ now) q
        = ratingCount (windowCards ⟨id, name, pre, ls⟩ now
            ++ windowCards ⟨id, name, post, ls⟩ now) q + bucketHit now c q := by
    intro q
    unfold ratingCount bucketHit
    by_cases hw : reviewedInWindow now c = true
    · by_cases hq : c.Rating = q
      · simp [hw, hq, List.countP_append, List.countP_cons]
        omega
      · simp [hw, hq, List.countP_append, List.countP_cons]
    · simp [hw, List.countP_append]
  simp only [hcount]
  have hr : r = 1 ∨ r = 2 ∨ r = 3 ∨ r = 4 ∨ r = 5 := by omega
  rcases hr with h | h | h | h | h <;> subst h <;> simp

theorem window_excluded_eq (now : Time) (c : Card) (id name : String) (pre post : List Card)
    (ls : Time) (hw : reviewedInWindow now c = false) :
    calculateDeckSuccessRate ⟨id, name, pre ++ c :: post, ls⟩ now
        = calculateDeckSuccessRate ⟨id, name, pre ++ post, ls⟩ now
    ∧ calculateDeckRatingDistribution ⟨id, name, pre ++ c :: post, ls⟩ now
        = calculateDeckRatingDistribution ⟨id, name, pre ++ post, ls⟩ now := by
  have h : windowCards ⟨id, name, pre ++ c :: post, ls⟩ now
      = windowCards ⟨id, name, pre ++ post, ls⟩ now := by
    rw [windowCards_insert, windowCards_append]
    simp [hw]
  constructor
  · rw [calculateDeckSuccessRate_eq, calculateDeckSuccessRate_eq, h]
  · rw [calculateDeckRatingDistribution_eq, calculateDeckRatingDistribution_eq, h]

/-- C18. The 30-day window is open at its lower end and unbounded above. For
every `now`, a card whose `LastReviewed` is the instant `now` minus 30 days, placed
anywhere in a deck, changes neither the counters and the result of
`calculateDeckSuccessRate` nor the map of `calculateDeckRatingDistribution`;
a card with a non-zero `LastReviewed` strictly later than that instant (later
than `now` included) adds one to the counter `totalReviewed` of the success
rate and, when its rating is between 1 and 5, one to the bucket of its rating;
and a card with a rating between 1 and 5 is counted by the one function exactly
when it is counted by the other. -/
theorem window_membership (now : Time) (c : Card) (id name : String) (pre post : List Card)
    (ls : Time) :
    (c.LastReviewed.Equal (now.AddDate (-30)) = true →
      (pre ++ c :: post).foldl (successRateStep now) (0, 0)
          = (pre ++ post).foldl (successRateStep now) (0, 0)
      ∧ calculateDeckSuccessRate ⟨id, name, pre ++ c :: post, ls⟩ now
          = calculateDeckSuccessRate ⟨id, name, pre ++ post, ls⟩ now
      ∧ calculateDeckRatingDistribution ⟨id, name, pre ++ c :: post, ls⟩ now
          = calculateDeckRatingDistribution ⟨id, name, pre ++ post, ls⟩ now)
    ∧ (c.LastReviewed.IsZero = false → c.LastReviewed.After (now.AddDate (-30)) = true →
      ((pre ++ c :: post).foldl (successRateStep now) (0, 0)).1
          = ((pre ++ post).foldl (successRateStep now) (0, 0)).1 + 1
      ∧ (1 ≤ c.Rating → c.Rating ≤ 5 →
          (calculateDeckRatingDistribution ⟨id, name, pre ++ c :: post, ls⟩ now).get c.Rating
            = (calculateDeckRatingDistribution ⟨id, name, pre ++ post, ls⟩ now).get c.Rating + 1))
    ∧ (1 ≤ c.Rating → c.Rating ≤ 5 →
      (((pre ++ c :: post).foldl (successRateStep now) (0, 0)).1
          = ((pre ++ post).foldl (successRateStep now) (0, 0)).1 + 1
        ↔ (calculateDeckRatingDistribution ⟨id, name, pre ++ c :: post, ls⟩ now).get c.Rating
            = (calculateDeckRatingDistribution ⟨id, name, pre ++ post, ls⟩ now).get c.Rating
              + 1)) := by
  refine ⟨?_, ?_, ?_⟩
  · intro hb
    have hw : reviewedInWindow now c = false := by
      have heq : c.LastReviewed.ns = (now.AddDate (-30)).ns := by
        simpa [Time.Equal] using hb
      simp [reviewedInWindow, thirtyDaysAgo, Time.After, heq]
    refine ⟨?_, (window_excluded_eq now c id name pre post ls hw).1,
      (window_excluded_eq now c id name pre post ls hw).2⟩
    rw [successRate_foldl, successRate_foldl]
    simp [List.filter_append, List.filter_cons, hw]
  · intro hz ha
    have hw : reviewedInWindow now c = true := by
      simp [reviewedInWindow, thirtyDaysAgo, hz, ha]
    refine ⟨?_, ?_⟩
    · rw [totalReviewed_insert, if_pos hw]
    · intro h1 h5
      rw [bucket_insert now c id name pre post ls c.Rating h1 h5]
      simp [bucketHit, hw]
  · intro h1 h5
    rw [totalReviewed_insert, bucket_insert now c id name pre post ls c.Rating h1 h5]
    by_cases hw : reviewedInWindow now c = true
    · simp [bucketHit, hw]
    · simp [bucketHit, hw]

theorem window_membership_witness :
    (calculateDeckSuccessRate ⟨"deck-6", "Edge", [reviewedCard 4 1 3, reviewedCard 5 9 30], refNow⟩
        refNow
      = calculateDeckSuccessRate ⟨"deck-6", "Edge", [reviewedCard 4 1 3], refNow⟩ refNow)
    ∧ ((calculateDeckRatingDistribution
          ⟨"deck-6", "Edge", [reviewedCard 4 1 3, reviewedCard 5 9 (-2)], refNow⟩ refNow).get 5
      = (calculateDeckRatingDistribution ⟨"deck-6", "Edge", [reviewedCard 4 1 3], refNow⟩
          refNow).get 5 + 1) :=
  ⟨((window_membership refNow (reviewedCard 5 9 30) "deck-6" "Edge" [reviewedCard 4 1 3] []
      refNow).1 (by decide)).2.1,
    ((window_membership refNow (reviewedCard 5 9 (-2)) "deck-6" "Edge" [reviewedCard 4 1 3] []
      refNow).2.1 (by decide) (by decide)).2 (by decide) (by decide)⟩
/-! ## Percentages and bars -/

theorem rating_counts_of_range (cards : List Card)
    (h : ∀ c ∈ cards, 1 ≤ c.Rating ∧ c.Rating ≤ 5) :
    ((cards.length : Nat) : Int)
        = ratingCount cards 1 + ratingCount cards 2 + ratingCount cards 3 + ratingCount cards 4
          + ratingCount cards 5
    ∧ (((cards.filter (fun c => decide (c.Rating ≥ 3))).length : Nat) : Int)
        = ratingCount cards 3 + ratingCount cards 4 + ratingCount cards 5 := by
  induction cards with
  | nil => simp [ratingCount]
  | cons c cs ih =>
    obtain ⟨ih1, ih2⟩ := ih (fun x hx => h x (List.mem_cons_of_mem _ hx))
    obtain ⟨h1, h5⟩ := h c (List.mem_cons_self _ _)
    have hr : c.Rating = 1 ∨ c.Rating = 2 ∨ c.Rating = 3 ∨ c.Rating = 4 ∨ c.Rating = 5 := by
      omega
    unfold ratingCount at ih1 ih2 ⊢
    simp only [ge_iff_le] at ih2 ⊢
    rcases hr with hr | hr | hr | hr | hr <;>
      · simp only [List.length_cons, List.countP_cons, List.filter_cons, hr]
        simp
        constructor <;> omega

/-- When every card reviewed inside the window has a rating between 1 and 5, the
success rate is the expression `int((float64(s) / float64(t)) * 100)` of the
success rate applied to the sums `s = d[3] + d[4] + d[5]` and
`t = d[1] + d[2] + d[3] + d[4] + d[5]` of the rating distribution `d`, and 0
when `t` is 0. -/
theorem successRate_agrees_with_distribution (deck : Deck) (now : Time)
    (hrange : ∀ c ∈ deck.Cards, reviewedInWindow now c = true → 1 ≤ c.Rating ∧ c.Rating ≤ 5) :
    calculateDeckSuccessRate deck now
      = if (calculateDeckRatingDistribution deck now).get 1
            + (calculateDeckRatingDistribution deck now).get 2
            + (calculateDeckRatingDistribution deck now).get 3
            + (calculateDeckRatingDistribution deck now).get 4
            + (calculateDeckRatingDistribution deck now).get 5 = 0 then 0
        else floatPercent
          ((calculateDeckRatingDistribution deck now).get 3
            + (calculateDeckRatingDistribution deck now).get 4
            + (calculateDeckRatingDistribution deck now).get 5)
          ((calculateDeckRatingDistribution deck now).get 1
            + (calculateDeckRatingDistribution deck now).get 2
            + (calculateDeckRatingDistribution deck now).get 3
            + (calculateDeckRatingDistribution deck now).get 4
            + (calculateDeckRatingDistribution deck now).get 5) := by
  have hw : ∀ c ∈ windowCards deck now, 1 ≤ c.Rating ∧ c.Rating ≤ 5 := by
    intro c hc
    unfold windowCards at hc
    rw [List.mem_filter] at hc
    exact hrange c hc.1 hc.2
  obtain ⟨htotal, hsucc⟩ := rating_counts_of_range (windowCards deck now) hw
  rw [calculateDeckSuccessRate_eq, calculateDeckRatingDistribution_eq]
  simp only [fiveBuckets_get _ _ _ _ _ 1 (by decide) (by decide),
    fiveBuckets_get _ _ _ _ _ 2 (by decide) (by decide),
    fiveBuckets_get _ _ _ _ _ 3 (by decide) (by decide),
    fiveBuckets_get _ _ _ _ _ 4 (by decide) (by decide),
    fiveBuckets_get _ _ _ _ _ 5 (by decide) (by decide)]
  norm_num only [if_true, if_false]
  rw [← htotal, ← hsucc]
  by_cases h0 : (windowCards deck now).length = 0
  · simp [h0]
  · have h1 : ¬ (((windowCards deck now).length : Nat) : Int) = 0 := by exact_mod_cast h0
    simp [h0, h1]

set_option maxRecDepth 8000 in
/-- C19. At the deck of fifty cards reviewed inside the window, 29 rated 4 and
21 rated 2, every rating lies between 1 and 5 and the distribution `d` holds
`d[2] = 21` and `d[4] = 29`; the truncated percentage of `d[3] + d[4] + d[5]`
out of the five buckets is `floor(100 * 29 / 50) = 58`, but
`calculateDeckSuccessRate` returns 57. Without the rating range the two can
differ in another way: a single card rated 7 inside the window gives the
rate 100 and five empty buckets. -/
theorem successRate_distribution_truncationDeck :
    (∀ c ∈ truncationDeck.Cards, reviewedInWindow refNow c = true → 1 ≤ c.Rating ∧ c.Rating ≤ 5)
    ∧ calculateDeckRatingDistribution truncationDeck refNow
        = [(1, 0), (2, 21), (3, 0), (4, 29), (5, 0)]
    ∧ (100 * (0 + 29 + 0) : Int) / (0 + 21 + 0 + 29 + 0) = 58
    ∧ calculateDeckSuccessRate truncationDeck refNow = 57
    ∧ calculateDeckSuccessRate outOfRangeDeck refNow = 100
    ∧ calculateDeckRatingDistribution outOfRangeDeck refNow
        = [(1, 0), (2, 0), (3, 0), (4, 0), (5, 0)] := by
  decide

set_option maxRecDepth 20000 in
/-- For a percentage between 0 and 100 the width of the bar is
`floor(30 * p / 100)`, raised to 1 when `p > 0` and that floor is 0. -/
theorem barWidth_of_percentage (p : Int) (h0 : 0 ≤ p) (h1 : p ≤ 100) :
    barWidth p = (if p > 0 ∧ 30 * p / 100 = 0 then 1 else 30 * p / 100) := by
  interval_cases p <;> decide

/-- For a percentage between 0 and 100 the bar has width 0 exactly when the
percentage is 0, and never more than `maxBarWidth`. -/
theorem barWidth_range (p : Int) (h0 : 0 ≤ p) (h1 : p ≤ 100) :
    (barWidth p = 0 ↔ p = 0) ∧ (0 < p → 1 ≤ barWidth p) ∧ barWidth p ≤ maxBarWidth := by
  rw [barWidth_of_percentage p h0 h1]
  unfold maxBarWidth
  refine ⟨?_, ?_, ?_⟩
  · constructor
    · intro h
      by_contra hp
      have hpos : p > 0 := by omega
      by_cases hf : 30 * p / 100 = 0
      · simp [hpos, hf] at h
      · simp [hf] at h
    · intro h
      subst h
      decide
  · intro hp
    by_cases hf : 30 * p / 100 = 0
    · simp [hp, hf]
    · simp only [hf, and_false, if_false]
      omega
  · split <;> omega

set_option maxRecDepth 8000 in
/-- C17. At the distribution of the deck of fifty cards reviewed inside the
window, `{1: 0, 2: 21, 3: 0, 4: 29, 5: 0}` (non-negative counts, total 50),
`renderRatingsDistribution` computes for bucket 4 the percentage 57 and prints
"57%", whereas `floor(100 * 29 / 50)` is 58. -/
theorem renderRatingsDistribution_truncationDeck :
    calculateDeckRatingDistribution truncationDeck refNow
        = [(1, 0), (2, 21), (3, 0), (4, 29), (5, 0)]
    ∧ barPercentage 50 29 = 57
    ∧ (100 * 29 : Int) / 50 = 58
    ∧ renderRatingsDistribution plainStyles [(1, 0), (2, 21), (3, 0), (4, 29), (5, 0)]
        = "Blackout (1)    \n\nWrong    (2)    ████████████ 42%\n\nHard     (3)    \n\nGood     (4)    █████████████████ 57%\n\nEasy     (5)    " := by
  decide

/-! ## Bounds on the float64 percentage -/

/-- Conversion of a positive integer to `float64` moves it by at most the
fraction `2 ^ -53` of its value. -/
theorem ofInt_error (i : Int) (h0 : 0 < i) :
    |(F64.ofInt i).toRat - (i : ℚ)| ≤ (i : ℚ) / 2 ^ 53 ∧ 0 < (F64.ofInt i).m := by
  have hne : i ≠ 0 := by omega
  have hneg : ¬ i < 0 := by omega
  have hof : F64.ofInt i = F64.roundRatio false i.natAbs 1 0 := by
    simp [F64.ofInt, hne, hneg]
  have habs : ((i.natAbs : Nat) : ℚ) = (i : ℚ) := by
    rw [Nat.cast_natAbs, abs_of_pos h0]
  have h := roundRatio_error i.natAbs 1 0 (by omega) (by decide)
  rw [hof]
  simpa [habs] using h

theorem div_m_pos (x y : F64) (hx : 0 < x.m) (hy : 0 < y.m) : 0 < (F64.div x y).m := by
  have hx0 : ¬ x.m = 0 := by omega
  have hy0 : ¬ y.m = 0 := by omega
  have hxn : ¬ x.m < 0 := by omega
  have hyn : ¬ y.m < 0 := by omega
  have hdiv : F64.div x y = F64.roundRatio false x.m.natAbs y.m.natAbs (x.e - y.e) := by
    simp [F64.div, hx0, hy0, hxn, hyn]
  rw [hdiv]
  exact (roundRatio_error x.m.natAbs y.m.natAbs (x.e - y.e) (by omega) (by omega)).2

/-- Multiplication of two positive floats moves the exact product by at most the
fraction `2 ^ -53` of its value. -/
theorem mul_error (x y : F64) (hx : 0 < x.m) (hy : 0 < y.m) :
    |(F64.mul x y).toRat - x.toRat * y.toRat| ≤ x.toRat * y.toRat / 2 ^ 53
    ∧ 0 < (F64.mul x y).m := by
  have hx0 : ¬ x.m = 0 := by omega
  have hy0 : ¬ y.m = 0 := by omega
  have hxn : ¬ x.m < 0 := by omega
  have hyn : ¬ y.m < 0 := by omega
  have hmul : F64.mul x y = F64.roundRatio false (x.m.natAbs * y.m.natAbs) 1 (x.e + y.e) := by
    simp [F64.mul, hx0, hy0, hxn, hyn]
  have hxa : ((x.m.natAbs : Nat) : ℚ) = (x.m : ℚ) := by
    rw [Nat.cast_natAbs, abs_of_pos hx]
  have hya : ((y.m.natAbs : Nat) : ℚ) = (y.m : ℚ) := by
    rw [Nat.cast_natAbs, abs_of_pos hy]
  have hq : x.toRat * y.toRat
      = ((x.m.natAbs * y.m.natAbs : Nat) : ℚ) / ((1 : Nat) : ℚ) * (2 : ℚ) ^ (x.e + y.e) := by
    rw [toRat_eq_zpow, toRat_eq_zpow, Nat.cast_mul, hxa, hya, Nat.cast_one, div_one,
      zpow_add₀ (two_ne_zero)]
    ring
  have hpos : 0 < x.m.natAbs * y.m.natAbs := Nat.mul_pos (by omega) (by omega)
  rw [hmul, hq]
  exact roundRatio_error (x.m.natAbs * y.m.natAbs) 1 (x.e + y.e) hpos (by decide)

/-- The conversion to `int` of a non-negative float is not negative and not
above the float. -/
theorem toInt_le_toRat (x : F64) (hx : 0 ≤ x.m) :
    0 ≤ F64.toInt x ∧ ((F64.toInt x : Int) : ℚ) ≤ x.toRat := by
  unfold F64.toInt F64.toRat
  by_cases he : 0 ≤ x.e
  · simp only [he, if_true]
    constructor
    · positivity
    · push_cast
      exact le_refl _
  · have hn : ¬ x.m < 0 := by omega
    simp only [he, if_false, hn]
    constructor
    · positivity
    · have hxa : ((x.m.natAbs : Nat) : ℚ) = (x.m : ℚ) := by
        rw [Nat.cast_natAbs, abs_of_nonneg hx]
      rw [Int.cast_natCast, ← hxa]
      have h := @Nat.cast_div_le ℚ _ x.m.natAbs (2 ^ (-x.e).toNat)
      simpa using h

theorem ofInt_hundred : (F64.ofInt 100).toRat = 100 ∧ 0 < (F64.ofInt 100).m := by
  have h := ofInt_exact 100 (by decide) (by decide)
  exact ⟨by simpa using h.1, h.2⟩

/-- The expression `int((float64(part) / float64(whole)) * 100)` of a part
between 0 and a positive whole lies between 0 and 100. -/
theorem floatPercent_bounds (part whole : Int) (h0 : 0 ≤ part) (hle : part ≤ whole)
    (hw : 0 < whole) :
    0 ≤ floatPercent part whole ∧ floatPercent part whole ≤ 100 := by
  by_cases hz : part = 0
  · subst hz
    have : floatPercent 0 whole = 0 := by
      simp [floatPercent, F64.ofInt, F64.div, F64.mul, F64.zero, F64.toInt]
    rw [this]
    decide
  · have hp : 0 < part := by omega
    obtain ⟨hxe, hxm⟩ := ofInt_error part hp
    obtain ⟨hye, hym⟩ := ofInt_error whole hw
    have hqm := div_m_pos _ _ hxm hym
    have hqe := div_error _ _ hxm hym
    obtain ⟨hce, hcm⟩ := ofInt_hundred
    obtain ⟨hze, hzm⟩ := mul_error _ _ hqm hcm
    obtain ⟨hi0, hile⟩ := toInt_le_toRat
      (F64.mul (F64.div (F64.ofInt part) (F64.ofInt whole)) (F64.ofInt 100)) (le_of_lt hzm)
    unfold floatPercent
    refine ⟨hi0, ?_⟩
    rw [hce] at hze
    generalize (F64.mul (F64.div (F64.ofInt part) (F64.ofInt whole)) (F64.ofInt 100)).toInt = n
      at hile ⊢
    generalize (F64.mul (F64.div (F64.ofInt part) (F64.ofInt whole)) (F64.ofInt 100)).toRat = Z
      at hile hze
    generalize (F64.div (F64.ofInt part) (F64.ofInt whole)).toRat = Q at hze hqe
    generalize (F64.ofInt part).toRat = X at hxe hqe
    generalize (F64.ofInt whole).toRat = Y at hye hqe
    have hpQ : (0 : ℚ) < part := by exact_mod_cast hp
    have hwQ : (0 : ℚ) < whole := by exact_mod_cast hw
    have hleQ : (part : ℚ) ≤ whole := by exact_mod_cast hle
    have hX := (abs_le.mp hxe).2
    have hY := (abs_le.mp hye).1
    have hYpos : 0 < Y := by
      have : (whole : ℚ) / 2 ^ 53 < whole := by
        rw [div_lt_iff₀ (by positivity)]
        have : (1 : ℚ) < 2 ^ 53 := by norm_num
        nlinarith
      linarith
    have hXY : X / Y ≤ (2 ^ 53 + 1) / (2 ^ 53 - 1) := by
      rw [div_le_div_iff₀ hYpos (by norm_num)]
      have h1 : X * (2 ^ 53 - 1) ≤ (whole + whole / 2 ^ 53) * (2 ^ 53 - 1) := by
        apply mul_le_mul_of_nonneg_right _ (by norm_num)
        have : (part : ℚ) / 2 ^ 53 ≤ whole / 2 ^ 53 :=
          div_le_div_of_nonneg_right hleQ (by positivity)
        linarith
      have h2 : (2 ^ 53 + 1) * (whole - whole / 2 ^ 53) ≤ (2 ^ 53 + 1) * Y := by
        apply mul_le_mul_of_nonneg_left _ (by norm_num)
        linarith
      have h3 : ((whole : ℚ) + whole / 2 ^ 53) * (2 ^ 53 - 1)
          = (2 ^ 53 + 1) * (whole - whole / 2 ^ 53) := by
        field_simp
        ring
      linarith
    have hXYpos : 0 ≤ X / Y := by
      apply div_nonneg _ (le_of_lt hYpos)
      have : (part : ℚ) / 2 ^ 53 ≤ part := by
        rw [div_le_iff₀ (by positivity)]
        have : (1 : ℚ) ≤ 2 ^ 53 := by norm_num
        nlinarith
      have := (abs_le.mp hxe).1
      linarith
    have hQ : Q ≤ (2 ^ 53 + 1) / (2 ^ 53 - 1) * (1 + 1 / 2 ^ 53) := by
      have hq2 := (abs_le.mp hqe).2
      have : Q ≤ X / Y * (1 + 1 / 2 ^ 53) := by
        have : X / Y * (1 + 1 / 2 ^ 53) = X / Y + X / Y / 2 ^ 53 := by ring
        linarith
      exact le_trans this (mul_le_mul_of_nonneg_right hXY (by norm_num))
    have hQpos : 0 ≤ Q := by
      have hq1 := (abs_le.mp hqe).1
      have : X / Y / 2 ^ 53 ≤ X / Y := by
        rw [div_le_iff₀ (by positivity)]
        have : (1 : ℚ) ≤ 2 ^ 53 := by norm_num
        nlinarith
      linarith
    have hZ : Z ≤ (2 ^ 53 + 1) / (2 ^ 53 - 1) * (1 + 1 / 2 ^ 53) * 100 * (1 + 1 / 2 ^ 53) := by
      have hz2 := (abs_le.mp hze).2
      have h1 : Z ≤ Q * 100 * (1 + 1 / 2 ^ 53) := by
        have : Q * 100 * (1 + 1 / 2 ^ 53) = Q * 100 + Q * 100 / 2 ^ 53 := by ring
        linarith
      have h2 : Q * 100 * (1 + 1 / 2 ^ 53)
          ≤ (2 ^ 53 + 1) / (2 ^ 53 - 1) * (1 + 1 / 2 ^ 53) * 100 * (1 + 1 / 2 ^ 53) := by
        apply mul_le_mul_of_nonneg_right _ (by norm_num)
        exact mul_le_mul_of_nonneg_right hQ (by norm_num)
      exact le_trans h1 h2
    have hnum : ((2 : ℚ) ^ 53 + 1) / (2 ^ 53 - 1) * (1 + 1 / 2 ^ 53) * 100 * (1 + 1 / 2 ^ 53)
        < 101 := by norm_num
    have hn : (n : ℚ) < 101 := by linarith
    have hn2 : n < 101 := by exact_mod_cast hn
    omega

set_option maxRecDepth 8000 in
theorem mul_one_hundred : F64.toInt (F64.mul ⟨2 ^ 52, -52⟩ (F64.ofInt 100)) = 100 := by decide

/-- A positive float divided by itself is the float 1. -/
theorem div_self_eq (x : F64) (hx : 0 < x.m) : F64.div x x = ⟨2 ^ 52, -52⟩ := by
  have hx0 : ¬ x.m = 0 := by omega
  have hxn : ¬ x.m < 0 := by omega
  have hn : 0 < x.m.natAbs := by omega
  have hshift : F64.roundShift x.m.natAbs x.m.natAbs = 52 := by
    simp [F64.roundShift]
  have hround : F64.roundNearestEven (x.m.natAbs * 2 ^ 52) (x.m.natAbs * 2 ^ 0) = 2 ^ 52 := by
    have hdiv : x.m.natAbs * 2 ^ 52 / (x.m.natAbs * 2 ^ 0) = 2 ^ 52 := by
      rw [pow_zero, mul_one]
      exact Nat.mul_div_cancel_left _ hn
    have hmod : x.m.natAbs * 2 ^ 52 % (x.m.natAbs * 2 ^ 0) = 0 := by
      rw [pow_zero, mul_one]
      exact Nat.mul_mod_right _ _
    unfold F64.roundNearestEven
    simp only [hdiv, hmod]
    have : 2 * 0 < x.m.natAbs * 2 ^ 0 := by omega
    rw [if_pos this]
  have hdef : F64.div x x = F64.roundRatio false x.m.natAbs x.m.natAbs (x.e - x.e) := by
    simp [F64.div, hx0, hxn]
  rw [hdef]
  unfold F64.roundRatio
  simp only [hshift]
  have h1 : (52 : Int).toNat = 52 := rfl
  have h2 : (-(52 : Int)).toNat = 0 := rfl
  rw [h1, h2, hround]
  simp

/-- The whole of a positive count is 100 percent. -/
theorem floatPercent_self (whole : Int) (hw : 0 < whole) : floatPercent whole whole = 100 := by
  unfold floatPercent
  rw [div_self_eq _ (ofInt_error whole hw).2]
  exact mul_one_hundred

/-- A proper part of a whole of at most `2 ^ 52` is less than 100 percent. -/
theorem floatPercent_lt_hundred (part whole : Int) (h0 : 0 ≤ part) (hlt : part < whole)
    (hw : whole ≤ 2 ^ 52) : floatPercent part whole ≤ 99 := by
  by_cases hz : part = 0
  · subst hz
    have : floatPercent 0 whole = 0 := by
      simp [floatPercent, F64.ofInt, F64.div, F64.mul, F64.zero, F64.toInt]
    rw [this]
    decide
  · have hp : 0 < part := by omega
    have hwpos : 0 < whole := by omega
    obtain ⟨hxe, hxm⟩ := ofInt_exact part hp (by omega)
    obtain ⟨hye, hym⟩ := ofInt_exact whole hwpos (by omega)
    have hqm := div_m_pos _ _ hxm hym
    have hqe := div_error _ _ hxm hym
    obtain ⟨hce, hcm⟩ := ofInt_hundred
    obtain ⟨hze, hzm⟩ := mul_error _ _ hqm hcm
    obtain ⟨_, hile⟩ := toInt_le_toRat
      (F64.mul (F64.div (F64.ofInt part) (F64.ofInt whole)) (F64.ofInt 100)) (le_of_lt hzm)
    unfold floatPercent
    rw [hce] at hze
    rw [hxe, hye] at hqe
    generalize (F64.mul (F64.div (F64.ofInt part) (F64.ofInt whole)) (F64.ofInt 100)).toInt = n
      at hile ⊢
    generalize (F64.mul (F64.div (F64.ofInt part) (F64.ofInt whole)) (F64.ofInt 100)).toRat = Z
      at hile hze
    generalize (F64.div (F64.ofInt part) (F64.ofInt whole)).toRat = Q at hze hqe
    have hpQ : (0 : ℚ) < part := by exact_mod_cast hp
    have hwQ : (0 : ℚ) < whole := by exact_mod_cast hwpos
    have hw52 : (whole : ℚ) ≤ 2 ^ 52 := by exact_mod_cast hw
    have hstep : (part : ℚ) + 1 ≤ whole := by exact_mod_cast hlt
    have hratio : (part : ℚ) / whole ≤ 1 - 1 / 2 ^ 52 := by
      rw [div_le_iff₀ hwQ]
      have h1 : (whole : ℚ) / 2 ^ 52 ≤ 1 := by
        rw [div_le_iff₀ (by positivity)]
        linarith
      have h2 : (1 - 1 / 2 ^ 52) * (whole : ℚ) = whole - whole / 2 ^ 52 := by ring
      linarith
    have hratio0 : (0 : ℚ) ≤ (part : ℚ) / whole := by positivity
    have hQ : Q ≤ (1 - 1 / 2 ^ 52) * (1 + 1 / 2 ^ 53) := by
      have hq2 := (abs_le.mp hqe).2
      have h1 : Q ≤ (part : ℚ) / whole * (1 + 1 / 2 ^ 53) := by
        have : (part : ℚ) / whole * (1 + 1 / 2 ^ 53)
            = (part : ℚ) / whole + (part : ℚ) / whole / 2 ^ 53 := by ring
        linarith
      exact le_trans h1 (mul_le_mul_of_nonneg_right hratio (by norm_num))
    have hQpos : 0 ≤ Q := by
      have hq1 := (abs_le.mp hqe).1
      have : (part : ℚ) / whole / 2 ^ 53 ≤ (part : ℚ) / whole := by
        rw [div_le_iff₀ (by positivity)]
        have : (1 : ℚ) ≤ 2 ^ 53 := by norm_num
        nlinarith
      linarith
    have hZ : Z ≤ (1 - 1 / 2 ^ 52) * (1 + 1 / 2 ^ 53) * 100 * (1 + 1 / 2 ^ 53) := by
      have hz2 := (abs_le.mp hze).2
      have h1 : Z ≤ Q * 100 * (1 + 1 / 2 ^ 53) := by
        have : Q * 100 * (1 + 1 / 2 ^ 53) = Q * 100 + Q * 100 / 2 ^ 53 := by ring
        linarith
      have h2 : Q * 100 * (1 + 1 / 2 ^ 53)
          ≤ (1 - 1 / 2 ^ 52) * (1 + 1 / 2 ^ 53) * 100 * (1 + 1 / 2 ^ 53) := by
        apply mul_le_mul_of_nonneg_right _ (by norm_num)
        exact mul_le_mul_of_nonneg_right hQ (by norm_num)
      exact le_trans h1 h2
    have hnum : ((1 : ℚ) - 1 / 2 ^ 52) * (1 + 1 / 2 ^ 53) * 100 * (1 + 1 / 2 ^ 53) < 100 := by
      norm_num
    have hn : (n : ℚ) < 100 := by linarith
    have hn2 : n < 100 := by exact_mod_cast hn
    omega


/-- The success rate of every deck lies between 0 and 100. -/
theorem calculateDeckSuccessRate_range (deck : Deck) (now : Time) :
    0 ≤ calculateDeckSuccessRate deck now ∧ calculateDeckSuccessRate deck now ≤ 100 := by
  rw [calculateDeckSuccessRate_eq]
  by_cases h0 : (windowCards deck now).length = 0
  · simp [h0]
  · rw [if_neg h0]
    apply floatPercent_bounds
    · positivity
    · have := List.length_filter_le (fun c : Card => decide (c.Rating ≥ 3)) (windowCards deck now)
      exact_mod_cast this
    · have : 0 < (windowCards deck now).length := Nat.pos_of_ne_zero h0
      exact_mod_cast this

/-- When every card reviewed inside the window has a rating between 1 and 5 and
the deck has at most `2 ^ 52` cards, the success rate is 100 exactly when the
buckets 1 and 2 of the rating distribution are empty and the five buckets are not
all empty. -/
theorem calculateDeckSuccessRate_hundred_iff (deck : Deck) (now : Time)
    (hrange : ∀ c ∈ deck.Cards, reviewedInWindow now c = true → 1 ≤ c.Rating ∧ c.Rating ≤ 5)
    (hsize : deck.Cards.length ≤ 2 ^ 52) :
    calculateDeckSuccessRate deck now = 100
      ↔ (calculateDeckRatingDistribution deck now).get 1 = 0
        ∧ (calculateDeckRatingDistribution deck now).get 2 = 0
        ∧ 0 < (calculateDeckRatingDistribution deck now).get 1
            + (calculateDeckRatingDistribution deck now).get 2
            + (calculateDeckRatingDistribution deck now).get 3
            + (calculateDeckRatingDistribution deck now).get 4
            + (calculateDeckRatingDistribution deck now).get 5 := by
  have hw : ∀ c ∈ windowCards deck now, 1 ≤ c.Rating ∧ c.Rating ≤ 5 := by
    intro c hc
    unfold windowCards at hc
    rw [List.mem_filter] at hc
    exact hrange c hc.1 hc.2
  obtain ⟨htotal, _⟩ := rating_counts_of_range (windowCards deck now) hw
  have hlen : (windowCards deck now).length ≤ 2 ^ 52 :=
    le_trans (List.length_filter_le _ _) hsize
  have hlenZ : (((windowCards deck now).length : Nat) : Int) ≤ 2 ^ 52 := by exact_mod_cast hlen
  rw [successRate_agrees_with_distribution deck now hrange]
  have hd : ∀ r : Int, 1 ≤ r → r ≤ 5 →
      (calculateDeckRatingDistribution deck now).get r = ratingCount (windowCards deck now) r := by
    intro r h1 h5
    rw [calculateDeckRatingDistribution_eq, fiveBuckets_get _ _ _ _ _ r h1 h5]
    have hr : r = 1 ∨ r = 2 ∨ r = 3 ∨ r = 4 ∨ r = 5 := by omega
    rcases hr with h | h | h | h | h <;> subst h <;> simp
  rw [hd 1 (by decide) (by decide), hd 2 (by decide) (by decide), hd 3 (by decide) (by decide),
    hd 4 (by decide) (by decide), hd 5 (by decide) (by decide)]
  have hn : ∀ r : Int, 0 ≤ ratingCount (windowCards deck now) r := by
    intro r
    unfold ratingCount
    positivity
  have h1 := hn 1
  have h2 := hn 2
  have h3 := hn 3
  have h4 := hn 4
  have h5 := hn 5
  generalize ratingCount (windowCards deck now) 1 = d1 at *
  generalize ratingCount (windowCards deck now) 2 = d2 at *
  generalize ratingCount (windowCards deck now) 3 = d3 at *
  generalize ratingCount (windowCards deck now) 4 = d4 at *
  generalize ratingCount (windowCards deck now) 5 = d5 at *
  constructor
  · intro h
    by_cases hT : d1 + d2 + d3 + d4 + d5 = 0
    · rw [if_pos hT] at h
      omega
    · rw [if_neg hT] at h
      by_cases hS : d3 + d4 + d5 < d1 + d2 + d3 + d4 + d5
      · have := floatPercent_lt_hundred (d3 + d4 + d5) (d1 + d2 + d3 + d4 + d5) (by omega) hS
          (by omega)
        omega
      · exact ⟨by omega, by omega, by omega⟩
  · rintro ⟨e1, e2, hT⟩
    have hT0 : ¬ d1 + d2 + d3 + d4 + d5 = 0 := by omega
    rw [if_neg hT0]
    have hS : d3 + d4 + d5 = d1 + d2 + d3 + d4 + d5 := by omega
    rw [hS]
    exact floatPercent_self _ hT

/-- For a bucket holding a count between 0 and a positive total, the percentage
of its bar lies between 0 and 100, and the width of the bar is
`floor(30 * p / 100)` raised to 1 when `p > 0` and that floor is 0: it is 0
exactly when the percentage is 0 and never exceeds `maxBarWidth`. -/
theorem bar_of_bucket (totalReviews count : Int) (h0 : 0 ≤ count) (hle : count ≤ totalReviews)
    (ht : 0 < totalReviews) :
    barPercentage totalReviews count = floatPercent count totalReviews
    ∧ 0 ≤ barPercentage totalReviews count ∧ barPercentage totalReviews count ≤ 100
    ∧ barWidth (barPercentage totalReviews count)
        = (if barPercentage totalReviews count > 0 ∧ 30 * barPercentage totalReviews count / 100 = 0
            then 1 else 30 * barPercentage totalReviews count / 100)
    ∧ (barWidth (barPercentage totalReviews count) = 0 ↔ barPercentage totalReviews count = 0)
    ∧ (0 < barPercentage totalReviews count → 1 ≤ barWidth (barPercentage totalReviews count))
    ∧ barWidth (barPercentage totalReviews count) ≤ maxBarWidth := by
  have hp : barPercentage totalReviews count = floatPercent count totalReviews := by
    simp [barPercentage, ht]
  obtain ⟨hb0, hb1⟩ := floatPercent_bounds count totalReviews h0 hle ht
  rw [hp]
  obtain ⟨r1, r2, r3⟩ := barWidth_range _ hb0 hb1
  exact ⟨rfl, hb0, hb1, barWidth_of_percentage _ hb0 hb1, r1, r2, r3⟩

end GoCard
